import Mathlib

/-!
Second-chance (clock) page replacement: `lab10.cpp`.

A shallow embedding of the three routines of `lab10.cpp`
(`PageTraceGenerator` with `RandNotJ`, `Simulate`, `FindVictim`) and
theorems about them.

Conventions of the embedding.

* A page table is a `List PTableEntry`; the C++ length argument `p` is kept
  as a separate argument, as in the source.
* `PTableEntry.vr` is an `unsigned char`: every store is reduced `% 256`.
* `frame`, `numFramesOpen` and `numPageFaults` are C++ `int`s and are
  modelled by `Int` (the sentinel `-1` matters); array indices, lengths and
  the clock hand are `Nat`.
* The `static int i` of `FindVictim` (the clock hand) is passed in and
  handed back explicitly.
* `FindVictim` contains an unbounded loop.  It is run with a bound `fuel` on
  the number of loop iterations; `Run.timeout` says that the loop is still
  running after `fuel` iterations, `Run.fault` says that the execution left
  defined behaviour (index outside the table, failed `assert`, `% 0`).
-/

namespace Lab10

/-! ## Data model -/

/-- Mask of the "referenced recently" bit of `vr`. -/
def REFERENCE : Nat := 1

/-- Mask of the "memory resident" bit of `vr`. -/
def VALID : Nat := 2

/-- One page-table entry: `int frame = -1; unsigned char vr = 0;`. -/
structure PTableEntry where
  frame : Int := -1
  vr : Nat := 0
deriving DecidableEq

/-- Outcome of running a piece of the program. -/
inductive Run (α : Type) where
  | ret (a : α)
  | timeout
  | fault
deriving DecidableEq

/-- The C++ statement `vr |= mask` on an `unsigned char`. -/
def orMask (vr mask : Nat) : Nat := (vr ||| mask) % 256

/-- The C++ statement `vr &= ~mask` on an `unsigned char`, `mask` a 32-bit `unsigned`. -/
def andNotMask (vr mask : Nat) : Nat := (vr &&& (4294967295 - mask)) % 256

/-- The test `e.vr & VALID`: the page is memory resident. -/
def resident (e : PTableEntry) : Prop := e.vr &&& VALID ≠ 0

/-- The test `e.vr & REFERENCE`: the page was referenced recently. -/
def referenced (e : PTableEntry) : Prop := e.vr &&& REFERENCE ≠ 0

instance (e : PTableEntry) : Decidable (resident e) := by
  unfold resident; infer_instance

instance (e : PTableEntry) : Decidable (referenced e) := by
  unfold referenced; infer_instance

/-! ## `FindVictim` -/

/-- What one pass through the body of the `for` loop of `FindVictim` does. -/
inductive ScanStep where
  | next (pageTable : List PTableEntry) (i : Nat)
  | done (newlyOpenFrame : Int) (pageTable : List PTableEntry) (i : Nat)
  | fault
deriving DecidableEq

/-- One iteration of the loop of `FindVictim` with the hand at `i`
(lines 129-142), the increment `++i %= p` included. -/
def scanStep (pageTable : List PTableEntry) (p i : Nat) : ScanStep :=
  if p = 0 then ScanStep.fault
  else
    match pageTable[i]? with
    | none => ScanStep.fault
    | some possibleVictim =>
      if possibleVictim.vr &&& VALID = 0 then
        ScanStep.next pageTable ((i + 1) % p)
      else if possibleVictim.vr &&& REFERENCE = 0 then
        ScanStep.done possibleVictim.frame
          (pageTable.set i { frame := -1, vr := andNotMask possibleVictim.vr VALID })
          ((i + 1) % p)
      else
        ScanStep.next
          (pageTable.set i { possibleVictim with vr := andNotMask possibleVictim.vr REFERENCE })
          ((i + 1) % p)

/-- What `FindVictim` hands back: the returned frame, the page table as the
call left it, and the value of the static hand `i`. -/
structure VictimResult where
  newlyOpenFrame : Int
  pageTable : List PTableEntry
  i : Nat
deriving DecidableEq

/-- The function `FindVictim(pageTable, p)` started with the static hand at `i`,
running at most `fuel` loop iterations. -/
def FindVictim : Nat → List PTableEntry → Nat → Nat → Run VictimResult
  | 0, _, _, _ => Run.timeout
  | fuel + 1, pageTable, p, i =>
    match scanStep pageTable p i with
    | ScanStep.fault => Run.fault
    | ScanStep.done fr pt j => Run.ret { newlyOpenFrame := fr, pageTable := pt, i := j }
    | ScanStep.next pt j => FindVictim fuel pt p j

/-! ## `Simulate` -/

/-- The variables of `Simulate` that live across loop iterations, together
with the static hand `i` of `FindVictim`. -/
structure SimState where
  pageTable : List PTableEntry
  numFramesOpen : Int
  numPageFaults : Int
  i : Nat
deriving DecidableEq

/-- Which branch the body of the loop of `Simulate` takes, with the page
table as it is after line 110 (`page.vr |= REFERENCE`). -/
inductive AccessKind where
  | hit (pageTable : List PTableEntry)
  | openFrame (pageTable : List PTableEntry)
  | evict (pageTable : List PTableEntry)
deriving DecidableEq

/-- Lines 108-116 of `Simulate` for the reference `pageAccessed`. -/
def classify (s : SimState) (pageAccessed : Nat) : Run AccessKind :=
  match s.pageTable[pageAccessed]? with
  | none => Run.fault
  | some page =>
    let page1 : PTableEntry := { page with vr := orMask page.vr REFERENCE }
    let pt1 := s.pageTable.set pageAccessed page1
    if page1.vr &&& VALID ≠ 0 then Run.ret (AccessKind.hit pt1)
    else if s.numFramesOpen ≠ 0 then Run.ret (AccessKind.openFrame pt1)
    else Run.ret (AccessKind.evict pt1)

/-- Lines 115/117 and 119: `page.frame = fr; page.vr |= VALID;` where `page`
is the reference `pageTable[pageAccessed]`. -/
def install (pageTable : List PTableEntry) (pageAccessed : Nat) (fr : Int) :
    Run (List PTableEntry) :=
  match pageTable[pageAccessed]? with
  | none => Run.fault
  | some page =>
    Run.ret (pageTable.set pageAccessed { frame := fr, vr := orMask page.vr VALID })

/-- One iteration of the loop of `Simulate` (lines 108-120). -/
def access (fuel p : Nat) (s : SimState) (pageAccessed : Nat) : Run SimState :=
  match classify s pageAccessed with
  | Run.fault => Run.fault
  | Run.timeout => Run.timeout
  | Run.ret (AccessKind.hit pt1) => Run.ret { s with pageTable := pt1 }
  | Run.ret (AccessKind.openFrame pt1) =>
    match install pt1 pageAccessed (s.numFramesOpen - 1) with
    | Run.ret pt2 =>
      Run.ret { pageTable := pt2, numFramesOpen := s.numFramesOpen - 1,
                numPageFaults := s.numPageFaults + 1, i := s.i }
    | Run.timeout => Run.timeout
    | Run.fault => Run.fault
  | Run.ret (AccessKind.evict pt1) =>
    match FindVictim fuel pt1 p s.i with
    | Run.fault => Run.fault
    | Run.timeout => Run.timeout
    | Run.ret r =>
      match install r.pageTable pageAccessed r.newlyOpenFrame with
      | Run.ret pt2 =>
        Run.ret { pageTable := pt2, numFramesOpen := s.numFramesOpen,
                  numPageFaults := s.numPageFaults + 1, i := r.i }
      | Run.timeout => Run.timeout
      | Run.fault => Run.fault

/-- The loop of `Simulate` over the page trace (line 107). -/
def simLoop (fuel p : Nat) : SimState → List Nat → Run SimState
  | s, [] => Run.ret s
  | s, pageAccessed :: rest =>
    match access fuel p s pageAccessed with
    | Run.ret s1 => simLoop fuel p s1 rest
    | Run.timeout => Run.timeout
    | Run.fault => Run.fault

/-- The state of `Simulate` on entry to its loop (lines 102-104), with the
static hand of `FindVictim` at `i`. -/
def initState (p : Nat) (f : Int) (i : Nat) : SimState :=
  { pageTable := List.replicate p { frame := -1, vr := 0 },
    numFramesOpen := f, numPageFaults := 0, i := i }

/-- The function `Simulate(ptrace, n, f, p)` where `n` is the length of
`ptrace`, entered with the static hand of `FindVictim` at `i`; every call
of `FindVictim` may run `fuel` loop iterations. -/
def Simulate (fuel : Nat) (ptrace : List Nat) (f : Int) (p i : Nat) : Run Int :=
  match simLoop fuel p (initState p f i) ptrace with
  | Run.ret s => Run.ret s.numPageFaults
  | Run.timeout => Run.timeout
  | Run.fault => Run.fault

/-! ## `RandNotJ` and `PageTraceGenerator` -/

/-- The function `RandNotJ(j, k)` where `r` is the value the call of `rand()` returns. -/
def RandNotJ (r j k : Nat) : Run Nat :=
  if ¬ j < k then Run.fault
  else if k - 1 = 0 then Run.fault
  else
    let res := r % (k - 1)
    Run.ret (if res < j then res else res + 1)

/-- The loop of `PageTraceGenerator` (lines 93-96) from index `i` on, for
`todo` more elements; `prev` is `ptrace[i - 1]` and `rand c` is the value the
`c`-th call of `rand()` returns (the call at index `i` is call number `i`). -/
def genLoop (rand : Nat → Nat) (p : Nat) : Nat → Nat → Nat → Run (List Nat)
  | 0, _, _ => Run.ret []
  | todo + 1, i, prev =>
    match RandNotJ (rand i) prev p with
    | Run.ret x =>
      match genLoop rand p todo (i + 1) x with
      | Run.ret xs => Run.ret (x :: xs)
      | Run.timeout => Run.timeout
      | Run.fault => Run.fault
    | Run.timeout => Run.timeout
    | Run.fault => Run.fault

/-- The function `PageTraceGenerator(n, p)`; `rand c` is the value the `c`-th
call of `rand()` returns. -/
def PageTraceGenerator (rand : Nat → Nat) (n p : Nat) : Run (List Nat) :=
  if n = 0 then Run.fault
  else if p = 0 then Run.fault
  else
    match genLoop rand p (n - 1) 1 (rand 0 % p) with
    | Run.ret xs => Run.ret (rand 0 % p :: xs)
    | Run.timeout => Run.timeout
    | Run.fault => Run.fault

/-! ## Specification-side definitions -/

/-- Position number `k` of the circular order that starts at hand position `h`. -/
def idx (p h k : Nat) : Nat := (h + k) % p

/-- The circular order of the page-table indices starting at `h`:
`h, h+1, ..., p-1, 0, ..., h-1`. -/
def circular (p h : Nat) : List Nat := (List.range p).map (idx p h)

/-- The entry at index `j` is resident (false outside the table). -/
def residentAt (pt : List PTableEntry) (j : Nat) : Bool :=
  match pt[j]? with
  | some e => decide (resident e)
  | none => false

/-- The entry at index `j` is resident with its referenced flag clear. -/
def evictableAt (pt : List PTableEntry) (j : Nat) : Bool :=
  match pt[j]? with
  | some e => decide (resident e ∧ ¬ referenced e)
  | none => false

/-- The victim as the specification words it: the first entry in circular
order from `h` that is resident with its referenced flag clear, and, when
there is none, the first resident entry in circular order from `h`. -/
def clockVictim (pt : List PTableEntry) (p h : Nat) : Option Nat :=
  match (circular p h).find? (evictableAt pt) with
  | some v => some v
  | none => (circular p h).find? (residentAt pt)

/-- The "second chance": a resident, referenced entry loses its referenced
flag (line 141); any other entry is left alone. -/
def secondChance (e : PTableEntry) : PTableEntry :=
  if resident e ∧ referenced e then { e with vr := andNotMask e.vr REFERENCE } else e

/-- The page table after `k` loop iterations of `FindVictim` from hand `h`,
none of which evicts. -/
def sweep (p : Nat) : Nat → List PTableEntry → Nat → List PTableEntry
  | 0, pt, _ => pt
  | k + 1, pt, h =>
    match pt[h]? with
    | some e => sweep p k (pt.set h (secondChance e)) ((h + 1) % p)
    | none => sweep p k pt ((h + 1) % p)

/-- Number of resident entries of a page table. -/
def countResident (pt : List PTableEntry) : Nat := pt.countP (fun e => decide (resident e))

/-- The entry of the accessed page after line 110. -/
def touch (page : PTableEntry) : PTableEntry := { page with vr := orMask page.vr REFERENCE }

/-- Everything a returning call of `FindVictim` on the table `pt` from hand
`h` does: it runs exactly `N` loop iterations, evicts index `v` and hands
back `r`. -/
structure VictimPost (pt : List PTableEntry) (p h N v : Nat) (r : VictimResult) : Prop where
  iters_pos : 1 ≤ N
  iters_le : N ≤ 2 * p
  last : v = idx p h (N - 1)
  v_lt : v < p
  returns : ∀ fuel, FindVictim (N + fuel) pt p h = Run.ret r
  running : ∀ n, n < N → FindVictim n pt p h = Run.timeout
  frame : ∃ e, pt[v]? = some e ∧ resident e ∧ r.newlyOpenFrame = e.frame
  hand : r.i = (v + 1) % p
  length : r.pageTable.length = p
  count : countResident r.pageTable + 1 = countResident pt
  table : ∀ (j : Nat) (e : PTableEntry), pt[j]? = some e → r.pageTable[j]? = some
    (if j = v then { frame := -1, vr := andNotMask (secondChance e).vr VALID }
     else if ∃ m, m < N ∧ idx p h m = j then secondChance e else e)
  choice : ∃ k, k < p ∧ v = idx p h k ∧
    ((evictableAt pt v = true ∧ ∀ m, m < k → evictableAt pt (idx p h m) = false) ∨
     ((∀ m, m < p → evictableAt pt (idx p h m) = false) ∧ residentAt pt v = true ∧
       ∀ m, m < k → residentAt pt (idx p h m) = false))

/-- What holds of the state of `Simulate` before and after every processed
reference, for a page count `p` and a frame count `f`. -/
structure SimInv (p : Nat) (f : Int) (s : SimState) : Prop where
  length : s.pageTable.length = p
  hand : s.i < p
  open_nonneg : 0 ≤ s.numFramesOpen
  count : (countResident s.pageTable : Int) + s.numFramesOpen = f
  frames : ∀ (j : Nat) (e : PTableEntry), s.pageTable[j]? = some e →
    (resident e → s.numFramesOpen ≤ e.frame ∧ e.frame < f) ∧ (¬ resident e → e.frame = -1)
  distinct : ∀ (j1 j2 : Nat) (e1 e2 : PTableEntry), s.pageTable[j1]? = some e1 →
    s.pageTable[j2]? = some e2 → j1 ≠ j2 → resident e1 → resident e2 → e1.frame ≠ e2.frame
  noStale : ∀ (j : Nat) (e : PTableEntry), s.pageTable[j]? = some e →
    ¬ resident e → ¬ referenced e

/-- What holds of the state of `Simulate` when the frame count is at least
the page count. -/
structure FitInv (p : Nat) (f : Int) (s : SimState) : Prop where
  length : s.pageTable.length = p
  count : (countResident s.pageTable : Int) + s.numFramesOpen = f
  fits : (p : Int) ≤ f

/-- The loop of `FindVictim` after `n` iterations from the table `pt` and the
hand `i`: still running with a table and a hand (`ScanStep.next`), or ended
by the `return` (`ScanStep.done`) or by a fault. -/
def scanIter (p : Nat) : Nat → List PTableEntry → Nat → ScanStep
  | 0, pt, i => ScanStep.next pt i
  | n + 1, pt, i =>
    match scanStep pt p i with
    | ScanStep.next pt1 j => scanIter p n pt1 j
    | ScanStep.done fr pt1 j => ScanStep.done fr pt1 j
    | ScanStep.fault => ScanStep.fault

/-- A sequence of calls `FindVictim(pageTable, p)` with the same `p`, one for
each table of the list, the static hand being carried from each call to the
next; the result is the hand after the last call. -/
def FindVictimCalls (fuel p : Nat) : Nat → List (List PTableEntry) → Run Nat
  | i, [] => Run.ret i
  | i, pt :: rest =>
    match FindVictim fuel pt p i with
    | Run.ret r => FindVictimCalls fuel p r.i rest
    | Run.timeout => Run.timeout
    | Run.fault => Run.fault

/-! ## Bit-level facts -/

theorem and_two_pow_eq (x n : Nat) : x &&& 2 ^ n = if x.testBit n then 2 ^ n else 0 := by
  apply Nat.eq_of_testBit_eq
  intro i
  rw [Nat.testBit_and, Nat.testBit_two_pow]
  by_cases h : x.testBit n = true
  · rw [if_pos h, Nat.testBit_two_pow]
    by_cases hi : n = i
    · subst hi; simp [h]
    · simp [hi]
  · rw [if_neg h, Nat.zero_testBit]
    by_cases hi : n = i
    · subst hi; simpa using h
    · simp [hi]

theorem and_two_pow_ne_zero (x n : Nat) : x &&& 2 ^ n ≠ 0 ↔ x.testBit n = true := by
  rw [and_two_pow_eq]
  by_cases h : x.testBit n = true
  · simp [h]
  · simp [h]

theorem testBit_sub_mask (m i : Nat) (hm : m < 4294967296) :
    (4294967295 - m).testBit i = (decide (i < 32) && !m.testBit i) := by
  have h : 4294967295 - m = 2 ^ 32 - (m + 1) := by norm_num; omega
  rw [h, Nat.testBit_two_pow_sub_succ (by norm_num; exact hm)]

theorem resident_iff (e : PTableEntry) : resident e ↔ e.vr.testBit 1 = true := by
  unfold resident VALID
  exact and_two_pow_ne_zero e.vr 1

theorem referenced_iff (e : PTableEntry) : referenced e ↔ e.vr.testBit 0 = true := by
  unfold referenced REFERENCE
  exact and_two_pow_ne_zero e.vr 0

theorem valid_eq_zero_iff (v : Nat) : v &&& VALID = 0 ↔ v.testBit 1 = false := by
  have h := and_two_pow_ne_zero v 1
  unfold VALID
  constructor
  · intro h0
    by_contra hb
    exact (h.2 (by simpa using hb)) h0
  · intro hb
    by_contra h0
    rw [h.1 h0] at hb
    exact Bool.noConfusion hb

theorem reference_eq_zero_iff (v : Nat) : v &&& REFERENCE = 0 ↔ v.testBit 0 = false := by
  have h := and_two_pow_ne_zero v 0
  unfold REFERENCE
  constructor
  · intro h0
    by_contra hb
    exact (h.2 (by simpa using hb)) h0
  · intro hb
    by_contra h0
    rw [h.1 h0] at hb
    exact Bool.noConfusion hb

theorem testBit_orMask (v m i : Nat) :
    (orMask v m).testBit i = (decide (i < 8) && (v.testBit i || m.testBit i)) := by
  unfold orMask
  have : (256 : Nat) = 2 ^ 8 := by norm_num
  rw [this, Nat.testBit_mod_two_pow, Nat.testBit_or]

theorem testBit_andNotMask (v m i : Nat) (hm : m < 4294967296) :
    (andNotMask v m).testBit i = (decide (i < 8) && (v.testBit i && !m.testBit i)) := by
  unfold andNotMask
  have : (256 : Nat) = 2 ^ 8 := by norm_num
  rw [this, Nat.testBit_mod_two_pow, Nat.testBit_and, testBit_sub_mask m i hm]
  by_cases h8 : i < 8
  · have h32 : i < 32 := by omega
    simp [h8, h32]
  · simp [h8]

theorem testBit_andNot_VALID (v i : Nat) :
    (andNotMask v VALID).testBit i = (decide (i < 8) && (v.testBit i && decide (i ≠ 1))) := by
  rw [testBit_andNotMask v VALID i (by decide)]
  have : VALID = 2 ^ 1 := rfl
  rw [this, Nat.testBit_two_pow]
  by_cases h : i = 1
  · subst h; simp
  · have h2 : ¬ (1 = i) := fun e => h e.symm
    simp [h, h2]

theorem testBit_andNot_REFERENCE (v i : Nat) :
    (andNotMask v REFERENCE).testBit i = (decide (i < 8) && (v.testBit i && decide (i ≠ 0))) := by
  rw [testBit_andNotMask v REFERENCE i (by decide)]
  have : REFERENCE = 2 ^ 0 := rfl
  rw [this, Nat.testBit_two_pow]
  by_cases h : i = 0
  · subst h; simp
  · have h2 : ¬ (0 = i) := fun e => h e.symm
    simp [h, h2]

theorem testBit_or_VALID (v i : Nat) :
    (orMask v VALID).testBit i = (decide (i < 8) && (v.testBit i || decide (i = 1))) := by
  rw [testBit_orMask]
  have : VALID = 2 ^ 1 := rfl
  rw [this, Nat.testBit_two_pow]
  by_cases h : i = 1
  · subst h; simp
  · have h2 : ¬ (1 = i) := fun e => h e.symm
    simp [h, h2]

theorem testBit_or_REFERENCE (v i : Nat) :
    (orMask v REFERENCE).testBit i = (decide (i < 8) && (v.testBit i || decide (i = 0))) := by
  rw [testBit_orMask]
  have : REFERENCE = 2 ^ 0 := rfl
  rw [this, Nat.testBit_two_pow]
  by_cases h : i = 0
  · subst h; simp
  · have h2 : ¬ (0 = i) := fun e => h e.symm
    simp [h, h2]

theorem resident_orRef (fr : Int) (e : PTableEntry) :
    resident { frame := fr, vr := orMask e.vr REFERENCE } ↔ resident e := by
  rw [resident_iff, resident_iff, testBit_or_REFERENCE]; simp

theorem referenced_orRef (fr : Int) (v : Nat) :
    referenced { frame := fr, vr := orMask v REFERENCE } := by
  rw [referenced_iff, testBit_or_REFERENCE]; simp

theorem resident_orValid (fr : Int) (v : Nat) :
    resident { frame := fr, vr := orMask v VALID } := by
  rw [resident_iff, testBit_or_VALID]; simp

theorem referenced_orValid (fr : Int) (e : PTableEntry) :
    referenced { frame := fr, vr := orMask e.vr VALID } ↔ referenced e := by
  rw [referenced_iff, referenced_iff, testBit_or_VALID]; simp

theorem resident_andNotValid (fr : Int) (v : Nat) :
    ¬ resident { frame := fr, vr := andNotMask v VALID } := by
  rw [resident_iff, testBit_andNot_VALID]; simp

theorem referenced_andNotValid (fr : Int) (e : PTableEntry) :
    referenced { frame := fr, vr := andNotMask e.vr VALID } ↔ referenced e := by
  rw [referenced_iff, referenced_iff, testBit_andNot_VALID]; simp

theorem resident_andNotRef (fr : Int) (e : PTableEntry) :
    resident { frame := fr, vr := andNotMask e.vr REFERENCE } ↔ resident e := by
  rw [resident_iff, resident_iff, testBit_andNot_REFERENCE]; simp

theorem referenced_andNotRef (fr : Int) (v : Nat) :
    ¬ referenced { frame := fr, vr := andNotMask v REFERENCE } := by
  rw [referenced_iff, testBit_andNot_REFERENCE]; simp

/-! ## Facts about `secondChance` -/

theorem secondChance_frame (e : PTableEntry) : (secondChance e).frame = e.frame := by
  unfold secondChance; split <;> rfl

theorem resident_secondChance (e : PTableEntry) : resident (secondChance e) ↔ resident e := by
  unfold secondChance
  split
  · exact resident_andNotRef _ _
  · rfl

theorem not_referenced_secondChance (e : PTableEntry) (h : resident e) :
    ¬ referenced (secondChance e) := by
  unfold secondChance
  split
  · exact referenced_andNotRef _ _
  · rename_i hn
    intro hr; exact hn ⟨h, hr⟩

theorem secondChance_of_not_resident (e : PTableEntry) (h : ¬ resident e) :
    secondChance e = e := by
  unfold secondChance; rw [if_neg]; intro hh; exact h hh.1

theorem secondChance_of_not_referenced (e : PTableEntry) (h : ¬ referenced e) :
    secondChance e = e := by
  unfold secondChance; rw [if_neg]; intro hh; exact h hh.2

theorem secondChance_idem (e : PTableEntry) : secondChance (secondChance e) = secondChance e := by
  by_cases h : resident e
  · exact secondChance_of_not_referenced _ (not_referenced_secondChance e h)
  · rw [secondChance_of_not_resident e h, secondChance_of_not_resident e h]

/-! ## Arithmetic of the circular order -/

theorem idx_eq_ite (p h k : Nat) (hh : h < p) (hk : k ≤ p) :
    idx p h k = if h + k < p then h + k else h + k - p := by
  unfold idx
  split
  · rename_i hlt; exact Nat.mod_eq_of_lt hlt
  · rename_i hge
    have h1 : h + k = (h + k - p) + p := by omega
    rw [h1, Nat.add_mod_right, Nat.mod_eq_of_lt (by omega)]
    omega

theorem idx_lt (p h k : Nat) (hp : 0 < p) : idx p h k < p := Nat.mod_lt _ hp

theorem idx_zero (p h : Nat) (hh : h < p) : idx p h 0 = h := by
  unfold idx; exact Nat.mod_eq_of_lt hh

theorem idx_full (p h : Nat) (hh : h < p) : idx p h p = h := by
  rw [idx_eq_ite p h p hh (Nat.le_refl p)]; split <;> omega

theorem idx_shift (p h k : Nat) : idx p ((h + 1) % p) k = idx p h (k + 1) := by
  unfold idx
  rw [Nat.add_mod, Nat.mod_mod, ← Nat.add_mod]
  congr 1; omega

theorem idx_succ (p h k : Nat) : (idx p h k + 1) % p = idx p h (k + 1) := by
  unfold idx
  rw [Nat.add_mod, Nat.mod_mod, ← Nat.add_mod]
  congr 1

theorem idx_ne_start (p h k : Nat) (hh : h < p) (hk0 : 0 < k) (hk : k < p) :
    idx p h k ≠ h := by
  rw [idx_eq_ite p h k hh (Nat.le_of_lt hk)]; split <;> omega

theorem idx_inj (p h k m : Nat) (hh : h < p) (hk : k < p) (hm : m < p)
    (e : idx p h k = idx p h m) : k = m := by
  rw [idx_eq_ite p h k hh (Nat.le_of_lt hk), idx_eq_ite p h m hh (Nat.le_of_lt hm)] at e
  split at e <;> split at e <;> omega

theorem idx_surj (p h j : Nat) (hh : h < p) (hj : j < p) : ∃ m, m < p ∧ idx p h m = j := by
  by_cases c : h ≤ j
  · refine ⟨j - h, by omega, ?_⟩
    rw [idx_eq_ite p h (j - h) hh (by omega)]; split <;> omega
  · refine ⟨j + p - h, by omega, ?_⟩
    rw [idx_eq_ite p h (j + p - h) hh (by omega)]; split <;> omega

/-! ## One loop iteration of `FindVictim` -/

theorem set_self_of_getElem? (pt : List PTableEntry) (h : Nat) (e : PTableEntry)
    (he : pt[h]? = some e) : pt.set h e = pt := by
  apply List.ext_getElem?
  intro j
  rw [List.getElem?_set]
  split
  · rename_i hj; subst hj
    split
    · exact he.symm
    · rename_i hl
      rw [List.getElem?_eq_none (by omega)] at he
      exact Option.noConfusion he
  · rfl

theorem scanStep_skip (pt : List PTableEntry) (p h : Nat) (e : PTableEntry) (hp : 0 < p)
    (he : pt[h]? = some e) (hne : ¬ (resident e ∧ ¬ referenced e)) :
    scanStep pt p h = ScanStep.next (pt.set h (secondChance e)) ((h + 1) % p) := by
  unfold scanStep
  rw [if_neg (by omega), he]
  simp only
  by_cases hv : e.vr &&& VALID = 0
  · rw [if_pos hv]
    have hnr : ¬ resident e := fun hr => hr hv
    rw [secondChance_of_not_resident e hnr, set_self_of_getElem? pt h e he]
  · rw [if_neg hv]
    have hr : resident e := hv
    have hrf : referenced e := by
      by_contra c; exact hne ⟨hr, c⟩
    rw [if_neg hrf]
    unfold secondChance
    rw [if_pos ⟨hr, hrf⟩]

theorem scanStep_evict (pt : List PTableEntry) (p h : Nat) (e : PTableEntry) (hp : 0 < p)
    (he : pt[h]? = some e) (hr : resident e) (hnf : ¬ referenced e) :
    scanStep pt p h = ScanStep.done e.frame
      (pt.set h { frame := -1, vr := andNotMask e.vr VALID }) ((h + 1) % p) := by
  unfold scanStep
  rw [if_neg (by omega), he]
  simp only
  rw [if_neg hr, if_pos (by by_contra c; exact hnf c)]

/-! ## The page table during a scan that does not evict -/

theorem sweep_length (p : Nat) : ∀ (k : Nat) (pt : List PTableEntry) (h : Nat),
    (sweep p k pt h).length = pt.length
  | 0, _, _ => rfl
  | k + 1, pt, h => by
    unfold sweep
    split
    · rw [sweep_length p k]; simp
    · rw [sweep_length p k]

theorem sweep_countResident (p : Nat) : ∀ (k : Nat) (pt : List PTableEntry) (h : Nat),
    countResident (sweep p k pt h) = countResident pt
  | 0, _, _ => rfl
  | k + 1, pt, h => by
    unfold sweep
    split
    · rename_i e he
      rw [sweep_countResident p k]
      have hl : h < pt.length := by
        by_contra c
        rw [List.getElem?_eq_none (by omega)] at he
        exact Option.noConfusion he
      have hget : pt[h] = e := by
        rw [List.getElem?_eq_getElem hl] at he
        exact Option.some.inj he
      unfold countResident
      rw [List.countP_set _ _ _ _ hl, hget]
      have hle := List.boole_getElem_le_countP (fun e => decide (resident e)) pt h hl
      rw [hget] at hle
      have hiff : decide (resident (secondChance e)) = decide (resident e) := by
        rw [decide_eq_decide]; exact resident_secondChance e
      rw [hiff]
      omega
    · rw [sweep_countResident p k]

theorem exists_idx_succ (p h j k : Nat) (hh : h < p) (hj : j ≠ h) :
    (∃ m, m < k ∧ idx p ((h + 1) % p) m = j) ↔ (∃ m, m < k + 1 ∧ idx p h m = j) := by
  constructor
  · rintro ⟨m, hm, e⟩
    exact ⟨m + 1, by omega, by rw [← idx_shift]; exact e⟩
  · rintro ⟨m, hm, e⟩
    cases m with
    | zero => rw [idx_zero p h hh] at e; exact absurd e.symm hj
    | succ m => exact ⟨m, by omega, by rw [idx_shift]; exact e⟩

theorem sweep_get (p : Nat) (hp : 0 < p) :
    ∀ (k : Nat) (pt : List PTableEntry) (h j : Nat) (e : PTableEntry), h < p →
    pt[j]? = some e →
    (sweep p k pt h)[j]? = some (if ∃ m, m < k ∧ idx p h m = j then secondChance e else e)
  | 0, pt, h, j, e, _, he => by
    unfold sweep
    rw [he, if_neg]
    rintro ⟨m, hm, _⟩
    omega
  | k + 1, pt, h, j, e, hh, he => by
    have hh1 : (h + 1) % p < p := Nat.mod_lt _ hp
    unfold sweep
    split
    · rename_i eh heh
      by_cases hj : j = h
      · subst hj
        have e1 : eh = e := Option.some.inj (heh.symm.trans he)
        subst e1
        have hl : j < pt.length := by
          by_contra c
          rw [List.getElem?_eq_none (by omega)] at he
          exact Option.noConfusion he
        have hs : (pt.set j (secondChance eh))[j]? = some (secondChance eh) :=
          List.getElem?_set_self hl
        rw [sweep_get p hp k _ _ j _ hh1 hs, secondChance_idem, ite_self,
          if_pos ⟨0, by omega, idx_zero p j hh⟩]
      · have hs : (pt.set h (secondChance eh))[j]? = some e := by
          rw [List.getElem?_set_ne (fun c => hj c.symm)]; exact he
        rw [sweep_get p hp k _ _ j _ hh1 hs]
        congr 1
        exact if_congr (exists_idx_succ p h j k hh hj) rfl rfl
    · rename_i hnone
      have hj : j ≠ h := by
        intro c; subst c; rw [hnone] at he; exact Option.noConfusion he
      rw [sweep_get p hp k _ _ j _ hh1 he]
      congr 1
      exact if_congr (exists_idx_succ p h j k hh hj) rfl rfl

/-! ## Running `FindVictim` -/

theorem sweep_succ_some (p k : Nat) (pt : List PTableEntry) (h : Nat) (e : PTableEntry)
    (he : pt[h]? = some e) :
    sweep p (k + 1) pt h = sweep p k (pt.set h (secondChance e)) ((h + 1) % p) := by
  rw [sweep, he]

theorem FindVictim_next (fuel : Nat) (pt : List PTableEntry) (p i : Nat)
    (pt1 : List PTableEntry) (j : Nat) (hs : scanStep pt p i = ScanStep.next pt1 j) :
    FindVictim (fuel + 1) pt p i = FindVictim fuel pt1 p j := by
  rw [FindVictim, hs]

theorem FindVictim_done (fuel : Nat) (pt : List PTableEntry) (p i : Nat) (fr : Int)
    (pt1 : List PTableEntry) (j : Nat) (hs : scanStep pt p i = ScanStep.done fr pt1 j) :
    FindVictim (fuel + 1) pt p i =
      Run.ret { newlyOpenFrame := fr, pageTable := pt1, i := j } := by
  rw [FindVictim, hs]

theorem FindVictim_skip (p : Nat) (hp : 0 < p) :
    ∀ (k : Nat) (pt : List PTableEntry) (h fuel : Nat), pt.length = p → h < p → k ≤ p →
    (∀ m, m < k → evictableAt pt (idx p h m) = false) →
    FindVictim (k + fuel) pt p h = FindVictim fuel (sweep p k pt h) p (idx p h k)
  | 0, pt, h, fuel, _, hh, _, _ => by
    rw [idx_zero p h hh]; simp [sweep]
  | k + 1, pt, h, fuel, hlen, hh, hk, hne => by
    have hl : h < pt.length := by omega
    have he : pt[h]? = some pt[h] := List.getElem?_eq_getElem hl
    have h0 := hne 0 (by omega)
    rw [idx_zero p h hh] at h0
    unfold evictableAt at h0
    rw [he] at h0
    have hne0 : ¬ (resident pt[h] ∧ ¬ referenced pt[h]) := by simpa using h0
    have e1 : k + 1 + fuel = (k + fuel) + 1 := by omega
    rw [e1, FindVictim_next _ _ _ _ _ _ (scanStep_skip pt p h pt[h] hp he hne0)]
    have hh1 : (h + 1) % p < p := Nat.mod_lt _ hp
    rw [FindVictim_skip p hp k _ _ fuel (by simp [hlen]) hh1 (by omega)]
    · rw [sweep_succ_some p k pt h pt[h] he, idx_shift]
    · intro m hm
      have hm1 := hne (m + 1) (by omega)
      rw [idx_shift]
      have hneq : idx p h (m + 1) ≠ h := idx_ne_start p h (m + 1) hh (by omega) (by omega)
      unfold evictableAt at hm1 ⊢
      rw [List.getElem?_set_ne (fun c => hneq c.symm)]
      exact hm1

theorem FindVictim_evict (pt : List PTableEntry) (p h fuel : Nat) (e : PTableEntry) (hp : 0 < p)
    (he : pt[h]? = some e) (hr : resident e) (hnf : ¬ referenced e) :
    FindVictim (fuel + 1) pt p h = Run.ret
      { newlyOpenFrame := e.frame,
        pageTable := pt.set h { frame := -1, vr := andNotMask e.vr VALID },
        i := (h + 1) % p } := by
  exact FindVictim_done _ _ _ _ _ _ _ (scanStep_evict pt p h e hp he hr hnf)

theorem FindVictim_running (p : Nat) (hp : 0 < p) (n : Nat) (pt : List PTableEntry) (h : Nat)
    (hlen : pt.length = p) (hh : h < p) (hn : n ≤ p)
    (hne : ∀ m, m < n → evictableAt pt (idx p h m) = false) :
    FindVictim n pt p h = Run.timeout := by
  have e := FindVictim_skip p hp n pt h 0 hlen hh hn hne
  rw [Nat.add_zero] at e
  rw [e, FindVictim]

theorem evictableAt_eq_true (pt : List PTableEntry) (j : Nat) (e : PTableEntry)
    (he : pt[j]? = some e) : evictableAt pt j = true ↔ resident e ∧ ¬ referenced e := by
  unfold evictableAt; rw [he]; simp

theorem evictableAt_eq_false (pt : List PTableEntry) (j : Nat) (e : PTableEntry)
    (he : pt[j]? = some e) : evictableAt pt j = false ↔ ¬ (resident e ∧ ¬ referenced e) := by
  unfold evictableAt; rw [he]; simp

theorem residentAt_eq_true (pt : List PTableEntry) (j : Nat) (e : PTableEntry)
    (he : pt[j]? = some e) : residentAt pt j = true ↔ resident e := by
  unfold residentAt; rw [he]; simp

theorem residentAt_eq_false (pt : List PTableEntry) (j : Nat) (e : PTableEntry)
    (he : pt[j]? = some e) : residentAt pt j = false ↔ ¬ resident e := by
  unfold residentAt; rw [he]; simp

theorem getElem?_of_lt (pt : List PTableEntry) (j : Nat) (hj : j < pt.length) :
    ∃ e, pt[j]? = some e := ⟨pt[j], List.getElem?_eq_getElem hj⟩

theorem lt_of_getElem? (pt : List PTableEntry) (j : Nat) (e : PTableEntry)
    (he : pt[j]? = some e) : j < pt.length := by
  by_contra c
  rw [List.getElem?_eq_none (by omega)] at he
  exact Option.noConfusion he

/-- The first evicting iteration: after `k` iterations that do not evict,
iteration `k + 1` finds an evictable entry. -/
theorem FindVictim_first (p : Nat) (hp : 0 < p) (k : Nat) (pt : List PTableEntry) (h : Nat)
    (e : PTableEntry) (hlen : pt.length = p) (hh : h < p) (hk : k < p)
    (hne : ∀ m, m < k → evictableAt pt (idx p h m) = false)
    (he : pt[idx p h k]? = some e) (hr : resident e) (hnf : ¬ referenced e) (fuel : Nat) :
    FindVictim (k + 1 + fuel) pt p h = Run.ret
      { newlyOpenFrame := e.frame,
        pageTable := (sweep p k pt h).set (idx p h k) { frame := -1, vr := andNotMask e.vr VALID },
        i := (idx p h k + 1) % p } := by
  have e1 : k + 1 + fuel = k + (fuel + 1) := by omega
  rw [e1, FindVictim_skip p hp k pt h (fuel + 1) hlen hh (by omega) hne]
  have hg := sweep_get p hp k pt h (idx p h k) e hh he
  rw [secondChance_of_not_referenced e hnf, ite_self] at hg
  exact FindVictim_evict _ p _ fuel e hp hg hr hnf

theorem countResident_evict (pt : List PTableEntry) (v : Nat) (e : PTableEntry) (vr : Nat)
    (he : pt[v]? = some e) (hr : resident e) :
    countResident (pt.set v { frame := -1, vr := andNotMask vr VALID }) + 1 = countResident pt := by
  have hl := lt_of_getElem? pt v e he
  have hget : pt[v] = e := by
    rw [List.getElem?_eq_getElem hl] at he
    exact Option.some.inj he
  unfold countResident
  rw [List.countP_set _ _ _ _ hl, hget]
  have hle := List.boole_getElem_le_countP (fun e => decide (resident e)) pt v hl
  rw [hget] at hle
  have h1 : decide (resident e) = true := by simpa using hr
  have h2 : decide (resident { frame := -1, vr := andNotMask vr VALID }) = false := by
    simpa using resident_andNotValid (-1) vr
  rw [h1] at hle
  rw [h1, h2]
  rw [if_pos rfl] at hle
  rw [if_pos rfl, if_neg (by simp)]
  omega

/-- Least position of the circular order at which a property of indices holds. -/
theorem exists_least (p : Nat) (q : Nat → Bool) (hq : ∃ k, k < p ∧ q k = true) :
    ∃ k, k < p ∧ q k = true ∧ ∀ m, m < k → q m = false := by
  classical
  have hex : ∃ k, q k = true := by
    obtain ⟨k, _, hk⟩ := hq
    exact ⟨k, hk⟩
  refine ⟨Nat.find hex, ?_, Nat.find_spec hex, ?_⟩
  · obtain ⟨k, hkp, hk⟩ := hq
    exact Nat.lt_of_le_of_lt (Nat.find_min' hex hk) hkp
  · intro m hm
    have := Nat.find_min hex hm
    simpa using this

/-- Case "some entry is resident and not referenced". -/
theorem FindVictim_post_first (p : Nat) (hp : 0 < p) (k : Nat) (pt : List PTableEntry) (h : Nat)
    (hlen : pt.length = p) (hh : h < p) (hk : k < p)
    (hne : ∀ m, m < k → evictableAt pt (idx p h m) = false)
    (hev : evictableAt pt (idx p h k) = true) :
    ∃ r, VictimPost pt p h (k + 1) (idx p h k) r := by
  have hv : idx p h k < p := idx_lt p h k hp
  obtain ⟨e, he⟩ := getElem?_of_lt pt (idx p h k) (by omega)
  obtain ⟨hr, hnf⟩ := (evictableAt_eq_true pt _ e he).1 hev
  have hsw := sweep_get p hp k pt h (idx p h k) e hh he
  rw [secondChance_of_not_referenced e hnf, ite_self] at hsw
  refine ⟨{ newlyOpenFrame := e.frame,
            pageTable := (sweep p k pt h).set (idx p h k)
              { frame := -1, vr := andNotMask e.vr VALID },
            i := (idx p h k + 1) % p }, ?_⟩
  refine
    { iters_pos := by omega
      iters_le := by omega
      last := by simp
      v_lt := hv
      returns := FindVictim_first p hp k pt h e hlen hh hk hne he hr hnf
      running := ?_
      frame := ⟨e, he, hr, rfl⟩
      hand := rfl
      length := by simp [sweep_length, hlen]
      count := ?_
      table := ?_
      choice := ⟨k, hk, rfl, Or.inl ⟨hev, hne⟩⟩ }
  · intro n hn
    exact FindVictim_running p hp n pt h hlen hh (by omega)
      (fun m hm => hne m (by omega))
  · show countResident ((sweep p k pt h).set (idx p h k) _) + 1 = countResident pt
    rw [countResident_evict _ _ e _ hsw hr, sweep_countResident]
  · intro j ej hej
    show ((sweep p k pt h).set (idx p h k) _)[j]? = _
    by_cases hj : j = idx p h k
    · subst hj
      have e1 : ej = e := Option.some.inj (hej.symm.trans he)
      subst e1
      rw [List.getElem?_set_self (by simp [sweep_length, hlen]; exact hv), if_pos rfl,
        secondChance_of_not_referenced ej hnf]
    · rw [List.getElem?_set_ne (fun c => hj c.symm), if_neg hj,
        sweep_get p hp k pt h j ej hh hej]
      congr 1
      apply if_congr _ rfl rfl
      constructor
      · rintro ⟨m, hm, em⟩; exact ⟨m, by omega, em⟩
      · rintro ⟨m, hm, em⟩
        refine ⟨m, ?_, em⟩
        by_contra c
        have : m = k := by omega
        subst this
        exact hj em.symm

/-- Case "every resident entry is referenced". -/
theorem FindVictim_post_second (p : Nat) (hp : 0 < p) (k : Nat) (pt : List PTableEntry) (h : Nat)
    (hlen : pt.length = p) (hh : h < p) (hk : k < p)
    (hne : ∀ m, m < p → evictableAt pt (idx p h m) = false)
    (hnr : ∀ m, m < k → residentAt pt (idx p h m) = false)
    (hres : residentAt pt (idx p h k) = true) :
    ∃ r, VictimPost pt p h (p + (k + 1)) (idx p h k) r := by
  have hv : idx p h k < p := idx_lt p h k hp
  obtain ⟨e, he⟩ := getElem?_of_lt pt (idx p h k) (by omega)
  have hr : resident e := (residentAt_eq_true pt _ e he).1 hres
  -- the table after the first full sweep
  have hsw : ∀ (j : Nat) (ej : PTableEntry), pt[j]? = some ej → (sweep p p pt h)[j]? = some (secondChance ej) := by
    intro j ej hej
    have hj : j < p := by have := lt_of_getElem? pt j ej hej; omega
    rw [sweep_get p hp p pt h j ej hh hej, if_pos (idx_surj p h j hh hj)]
  have hlen2 : (sweep p p pt h).length = p := by rw [sweep_length, hlen]
  have hne2 : ∀ m, m < k → evictableAt (sweep p p pt h) (idx p h m) = false := by
    intro m hm
    obtain ⟨em, hem⟩ := getElem?_of_lt pt (idx p h m) (by have := idx_lt p h m hp; omega)
    have hnrm : ¬ resident em := (residentAt_eq_false pt _ em hem).1 (hnr m hm)
    rw [evictableAt_eq_false _ _ _ (hsw _ em hem), secondChance_of_not_resident em hnrm]
    exact fun c => hnrm c.1
  have hr2 : resident (secondChance e) := (resident_secondChance e).2 hr
  have hnf2 : ¬ referenced (secondChance e) := not_referenced_secondChance e hr
  have hfirst := FindVictim_first p hp k (sweep p p pt h) h (secondChance e) hlen2 hh hk hne2
    (hsw _ e he) hr2 hnf2
  have hskip : ∀ fuel, FindVictim (p + fuel) pt p h = FindVictim fuel (sweep p p pt h) p h := by
    intro fuel
    have := FindVictim_skip p hp p pt h fuel hlen hh (Nat.le_refl p) hne
    rw [idx_full p h hh] at this
    exact this
  have hswk := sweep_get p hp k (sweep p p pt h) h (idx p h k) (secondChance e) hh (hsw _ e he)
  rw [secondChance_idem, ite_self] at hswk
  refine ⟨{ newlyOpenFrame := (secondChance e).frame,
            pageTable := (sweep p k (sweep p p pt h) h).set (idx p h k)
              { frame := -1, vr := andNotMask (secondChance e).vr VALID },
            i := (idx p h k + 1) % p }, ?_⟩
  refine
    { iters_pos := by omega
      iters_le := by omega
      last := ?_
      v_lt := hv
      returns := ?_
      running := ?_
      frame := ⟨e, he, hr, (secondChance_frame e)⟩
      hand := rfl
      length := by simp [sweep_length, hlen]
      count := ?_
      table := ?_
      choice := ⟨k, hk, rfl, Or.inr ⟨hne, hres, hnr⟩⟩ }
  · have e1 : p + (k + 1) - 1 = k + p := by omega
    rw [e1]
    unfold idx
    rw [← Nat.add_assoc, Nat.add_mod_right]
  · intro fuel
    rw [Nat.add_assoc, hskip]
    exact hfirst fuel
  · intro n hn
    by_cases c : n ≤ p
    · exact FindVictim_running p hp n pt h hlen hh c (fun m hm => hne m (by omega))
    · have e1 : n = p + (n - p) := by omega
      rw [e1, hskip]
      exact FindVictim_running p hp (n - p) _ h hlen2 hh (by omega)
        (fun m hm => hne2 m (by omega))
  · show countResident ((sweep p k (sweep p p pt h) h).set (idx p h k) _) + 1 = countResident pt
    rw [countResident_evict _ _ (secondChance e) _ hswk hr2, sweep_countResident,
      sweep_countResident]
  · intro j ej hej
    have hjp : j < p := by have := lt_of_getElem? pt j ej hej; omega
    show ((sweep p k (sweep p p pt h) h).set (idx p h k) _)[j]? = _
    by_cases hj : j = idx p h k
    · subst hj
      have e1 : ej = e := Option.some.inj (hej.symm.trans he)
      subst e1
      rw [List.getElem?_set_self (by simp [sweep_length, hlen]; exact hv), if_pos rfl]
    · rw [List.getElem?_set_ne (fun c => hj c.symm), if_neg hj,
        sweep_get p hp k _ h j (secondChance ej) hh (hsw j ej hej), secondChance_idem, ite_self]
      obtain ⟨m, hm, em⟩ := idx_surj p h j hh hjp
      rw [if_pos ⟨m, by omega, em⟩]

/-- A call of `FindVictim` on a table with a resident entry returns, and
`VictimPost` describes what it did. -/
theorem FindVictim_post (pt : List PTableEntry) (p h : Nat) (hlen : pt.length = p) (hh : h < p)
    (hres : ∃ (j : Nat) (e : PTableEntry), pt[j]? = some e ∧ resident e) :
    ∃ N v r, VictimPost pt p h N v r := by
  have hp : 0 < p := by omega
  by_cases hev : ∃ k, k < p ∧ evictableAt pt (idx p h k) = true
  · obtain ⟨k, hk, hk1, hk2⟩ := exists_least p (fun k => evictableAt pt (idx p h k)) hev
    obtain ⟨r, hr⟩ := FindVictim_post_first p hp k pt h hlen hh hk hk2 hk1
    exact ⟨_, _, r, hr⟩
  · have hne : ∀ m, m < p → evictableAt pt (idx p h m) = false := by
      intro m hm
      by_contra c
      exact hev ⟨m, hm, by simpa using c⟩
    have hex : ∃ k, k < p ∧ residentAt pt (idx p h k) = true := by
      obtain ⟨j, e, hj, hr⟩ := hres
      have hjp : j < p := by have := lt_of_getElem? pt j e hj; omega
      obtain ⟨m, hm, em⟩ := idx_surj p h j hh hjp
      refine ⟨m, hm, ?_⟩
      rw [em]
      exact (residentAt_eq_true pt j e hj).2 hr
    obtain ⟨k, hk, hk1, hk2⟩ := exists_least p (fun k => residentAt pt (idx p h k)) hex
    obtain ⟨r, hr⟩ := FindVictim_post_second p hp k pt h hlen hh hk hne hk2 hk1
    exact ⟨_, _, r, hr⟩

/-! ## One iteration of the loop of `Simulate` -/

theorem resident_touch (page : PTableEntry) : resident (touch page) ↔ resident page :=
  resident_orRef _ _

theorem referenced_touch (page : PTableEntry) : referenced (touch page) :=
  referenced_orRef _ _

theorem touch_frame (page : PTableEntry) : (touch page).frame = page.frame := rfl

theorem classify_hit (s : SimState) (x : Nat) (page : PTableEntry)
    (hx : s.pageTable[x]? = some page) (hr : resident page) :
    classify s x = Run.ret (AccessKind.hit (s.pageTable.set x (touch page))) := by
  unfold classify
  rw [hx]
  simp only
  have h : orMask page.vr REFERENCE &&& VALID ≠ 0 := (resident_touch page).2 hr
  rw [if_pos h]
  rfl

theorem classify_open (s : SimState) (x : Nat) (page : PTableEntry)
    (hx : s.pageTable[x]? = some page) (hr : ¬ resident page) (ho : s.numFramesOpen ≠ 0) :
    classify s x = Run.ret (AccessKind.openFrame (s.pageTable.set x (touch page))) := by
  unfold classify
  rw [hx]
  simp only
  have h : ¬ (orMask page.vr REFERENCE &&& VALID ≠ 0) :=
    fun c => hr ((resident_touch page).1 c)
  rw [if_neg h, if_pos ho]
  rfl

theorem classify_evict (s : SimState) (x : Nat) (page : PTableEntry)
    (hx : s.pageTable[x]? = some page) (hr : ¬ resident page) (ho : s.numFramesOpen = 0) :
    classify s x = Run.ret (AccessKind.evict (s.pageTable.set x (touch page))) := by
  unfold classify
  rw [hx]
  simp only
  have h : ¬ (orMask page.vr REFERENCE &&& VALID ≠ 0) :=
    fun c => hr ((resident_touch page).1 c)
  rw [if_neg h, if_neg (fun c => c ho)]
  rfl

theorem install_eq (pt : List PTableEntry) (x : Nat) (fr : Int) (page : PTableEntry)
    (hx : pt[x]? = some page) :
    install pt x fr = Run.ret (pt.set x { frame := fr, vr := orMask page.vr VALID }) := by
  unfold install
  rw [hx]

theorem access_hit (fuel p : Nat) (s : SimState) (x : Nat) (page : PTableEntry)
    (hx : s.pageTable[x]? = some page) (hr : resident page) :
    access fuel p s x = Run.ret { s with pageTable := s.pageTable.set x (touch page) } := by
  unfold access
  rw [classify_hit s x page hx hr]

theorem access_open (fuel p : Nat) (s : SimState) (x : Nat) (page : PTableEntry)
    (hx : s.pageTable[x]? = some page) (hr : ¬ resident page) (ho : s.numFramesOpen ≠ 0) :
    access fuel p s x = Run.ret
      { pageTable := s.pageTable.set x
          { frame := s.numFramesOpen - 1, vr := orMask (touch page).vr VALID },
        numFramesOpen := s.numFramesOpen - 1,
        numPageFaults := s.numPageFaults + 1,
        i := s.i } := by
  unfold access
  rw [classify_open s x page hx hr ho]
  simp only
  have hl := lt_of_getElem? _ _ _ hx
  rw [install_eq _ x _ (touch page) (List.getElem?_set_self hl)]
  simp only [List.set_set]

theorem access_evict (fuel p : Nat) (s : SimState) (x : Nat) (page : PTableEntry)
    (r : VictimResult) (page2 : PTableEntry)
    (hx : s.pageTable[x]? = some page) (hr : ¬ resident page) (ho : s.numFramesOpen = 0)
    (hv : FindVictim fuel (s.pageTable.set x (touch page)) p s.i = Run.ret r)
    (hx2 : r.pageTable[x]? = some page2) :
    access fuel p s x = Run.ret
      { pageTable := r.pageTable.set x
          { frame := r.newlyOpenFrame, vr := orMask page2.vr VALID },
        numFramesOpen := s.numFramesOpen,
        numPageFaults := s.numPageFaults + 1,
        i := r.i } := by
  unfold access
  rw [classify_evict s x page hx hr ho]
  simp only
  rw [hv]
  simp only
  rw [install_eq _ x _ page2 hx2]

theorem countResident_set (pt : List PTableEntry) (x : Nat) (e a : PTableEntry)
    (hx : pt[x]? = some e) :
    countResident (pt.set x a) + (if resident e then 1 else 0) =
      countResident pt + (if resident a then 1 else 0) := by
  have hl := lt_of_getElem? pt x e hx
  have hget : pt[x] = e := by
    rw [List.getElem?_eq_getElem hl] at hx
    exact Option.some.inj hx
  unfold countResident
  rw [List.countP_set _ _ _ _ hl, hget]
  have hle := List.boole_getElem_le_countP (fun e => decide (resident e)) pt x hl
  rw [hget] at hle
  simp only [decide_eq_true_eq] at hle ⊢
  omega

theorem exists_resident_of_count (pt : List PTableEntry) (h : 0 < countResident pt) :
    ∃ (j : Nat) (e : PTableEntry), pt[j]? = some e ∧ resident e := by
  unfold countResident at h
  obtain ⟨a, ha, hr⟩ := List.countP_pos_iff.1 h
  obtain ⟨j, hj, e⟩ := List.getElem_of_mem ha
  refine ⟨j, a, ?_, by simpa using hr⟩
  rw [List.getElem?_eq_getElem hj, e]

/-! ## The loop invariant of `Simulate` is kept -/

theorem getElem?_set_cases (pt : List PTableEntry) (x j : Nat) (a e : PTableEntry)
    (h : (pt.set x a)[j]? = some e) : (j = x ∧ e = a) ∨ (j ≠ x ∧ pt[j]? = some e) := by
  by_cases hj : j = x
  · subst hj
    left
    have hl : j < pt.length := by
      have := lt_of_getElem? _ _ _ h
      simpa using this
    rw [List.getElem?_set_self hl] at h
    exact ⟨rfl, (Option.some.inj h).symm⟩
  · right
    rw [List.getElem?_set_ne (fun c => hj c.symm)] at h
    exact ⟨hj, h⟩

theorem initState_getElem? (p : Nat) (f : Int) (i j : Nat) (e : PTableEntry)
    (h : (initState p f i).pageTable[j]? = some e) : e = { frame := -1, vr := 0 } := by
  unfold initState at h
  simp only at h
  have hl := lt_of_getElem? _ _ _ h
  rw [List.getElem?_eq_getElem hl, List.getElem_replicate] at h
  exact (Option.some.inj h).symm

theorem not_resident_init : ¬ resident { frame := -1, vr := 0 } := by
  unfold resident VALID; decide

theorem not_referenced_init : ¬ referenced { frame := -1, vr := 0 } := by
  unfold referenced REFERENCE; decide

theorem countResident_init (p : Nat) (f : Int) (i : Nat) :
    countResident (initState p f i).pageTable = 0 := by
  unfold countResident initState
  simp only
  rw [List.countP_eq_zero]
  intro a ha
  rw [List.eq_of_mem_replicate ha]
  simpa using not_resident_init

theorem SimInv_init (p : Nat) (f : Int) (i : Nat) (hf : 0 ≤ f) (hi : i < p) :
    SimInv p f (initState p f i) where
  length := by simp [initState]
  hand := hi
  open_nonneg := hf
  count := by rw [countResident_init]; simp [initState]
  frames := by
    intro j e he
    rw [initState_getElem? p f i j e he]
    exact ⟨fun c => absurd c not_resident_init, fun _ => rfl⟩
  distinct := by
    intro j1 j2 e1 e2 h1 _ _ hr _
    rw [initState_getElem? p f i j1 e1 h1] at hr
    exact absurd hr not_resident_init
  noStale := by
    intro j e he _
    rw [initState_getElem? p f i j e he]
    exact not_referenced_init

theorem SimInv_hit (p : Nat) (f : Int) (s : SimState) (x : Nat) (page : PTableEntry)
    (hinv : SimInv p f s) (hx : s.pageTable[x]? = some page) (hr : resident page) :
    SimInv p f { s with pageTable := s.pageTable.set x (touch page) } where
  length := by simp [hinv.length]
  hand := hinv.hand
  open_nonneg := hinv.open_nonneg
  count := by
    have hc := countResident_set s.pageTable x page (touch page) hx
    rw [if_pos hr, if_pos ((resident_touch page).2 hr)] at hc
    have := hinv.count
    simp only
    omega
  frames := by
    intro j e he
    rcases getElem?_set_cases _ _ _ _ _ he with ⟨rfl, rfl⟩ | ⟨_, hj⟩
    · have := hinv.frames j page hx
      rw [resident_touch, touch_frame]
      exact this
    · exact hinv.frames j e hj
  distinct := by
    intro j1 j2 e1 e2 h1 h2 hne hr1 hr2
    have key : ∀ (j : Nat) (e : PTableEntry), (s.pageTable.set x (touch page))[j]? = some e →
        resident e → ∃ e0, s.pageTable[j]? = some e0 ∧ resident e0 ∧ e0.frame = e.frame := by
      intro j e he hre
      rcases getElem?_set_cases _ _ _ _ _ he with ⟨rfl, rfl⟩ | ⟨_, hj⟩
      · exact ⟨page, hx, hr, rfl⟩
      · exact ⟨e, hj, hre, rfl⟩
    obtain ⟨a1, ha1, hra1, hf1⟩ := key j1 e1 h1 hr1
    obtain ⟨a2, ha2, hra2, hf2⟩ := key j2 e2 h2 hr2
    rw [← hf1, ← hf2]
    exact hinv.distinct j1 j2 a1 a2 ha1 ha2 hne hra1 hra2
  noStale := by
    intro j e he hnr
    rcases getElem?_set_cases _ _ _ _ _ he with ⟨rfl, rfl⟩ | ⟨_, hj⟩
    · exact absurd ((resident_touch page).2 hr) hnr
    · exact hinv.noStale j e hj hnr

theorem SimInv_open (p : Nat) (f : Int) (s : SimState) (x : Nat) (page : PTableEntry)
    (hinv : SimInv p f s) (hx : s.pageTable[x]? = some page) (hr : ¬ resident page)
    (ho : s.numFramesOpen ≠ 0) :
    SimInv p f
      { pageTable := s.pageTable.set x
          { frame := s.numFramesOpen - 1, vr := orMask (touch page).vr VALID },
        numFramesOpen := s.numFramesOpen - 1,
        numPageFaults := s.numPageFaults + 1,
        i := s.i } where
  length := by simp [hinv.length]
  hand := hinv.hand
  open_nonneg := by have := hinv.open_nonneg; simp only; omega
  count := by
    have hc := countResident_set s.pageTable x page
      { frame := s.numFramesOpen - 1, vr := orMask (touch page).vr VALID } hx
    rw [if_neg hr, if_pos (resident_orValid _ _)] at hc
    have := hinv.count
    simp only
    omega
  frames := by
    intro j e he
    have hpos := hinv.open_nonneg
    have hcnt := hinv.count
    rcases getElem?_set_cases _ _ _ _ _ he with ⟨rfl, rfl⟩ | ⟨_, hj⟩
    · refine ⟨fun _ => ⟨le_refl _, ?_⟩, fun c => absurd (resident_orValid _ _) c⟩
      simp only
      omega
    · have := hinv.frames j e hj
      refine ⟨fun c => ?_, this.2⟩
      have := this.1 c
      simp only
      omega
  distinct := by
    intro j1 j2 e1 e2 h1 h2 hne hr1 hr2
    rcases getElem?_set_cases _ _ _ _ _ h1 with ⟨rfl, rfl⟩ | ⟨hj1, hj1'⟩
    · rcases getElem?_set_cases _ _ _ _ _ h2 with ⟨rfl, rfl⟩ | ⟨_, hj2'⟩
      · exact absurd rfl hne
      · have := (hinv.frames j2 e2 hj2').1 hr2
        simp only
        omega
    · rcases getElem?_set_cases _ _ _ _ _ h2 with ⟨rfl, rfl⟩ | ⟨_, hj2'⟩
      · have := (hinv.frames j1 e1 hj1').1 hr1
        simp only
        omega
      · exact hinv.distinct j1 j2 e1 e2 hj1' hj2' hne hr1 hr2
  noStale := by
    intro j e he hnr
    rcases getElem?_set_cases _ _ _ _ _ he with ⟨rfl, rfl⟩ | ⟨_, hj⟩
    · exact absurd (resident_orValid _ _) hnr
    · exact hinv.noStale j e hj hnr

/-- The victim is never the page being accessed. -/
theorem victim_ne_accessed (p : Nat) (s : SimState) (x : Nat) (page : PTableEntry)
    (N v : Nat) (r : VictimResult) (hx : s.pageTable[x]? = some page) (hr : ¬ resident page)
    (post : VictimPost (s.pageTable.set x (touch page)) p s.i N v r) : v ≠ x := by
  intro c
  subst c
  obtain ⟨e, he, hre, _⟩ := post.frame
  have hl := lt_of_getElem? _ _ _ hx
  rw [List.getElem?_set_self hl] at he
  rw [← Option.some.inj he] at hre
  exact hr ((resident_touch page).1 hre)

/-- The entry of the accessed page is not touched by the eviction. -/
theorem accessed_after_evict (p : Nat) (s : SimState) (x : Nat) (page : PTableEntry)
    (N v : Nat) (r : VictimResult) (hx : s.pageTable[x]? = some page) (hr : ¬ resident page)
    (post : VictimPost (s.pageTable.set x (touch page)) p s.i N v r) :
    r.pageTable[x]? = some (touch page) := by
  have hl := lt_of_getElem? _ _ _ hx
  have hne := victim_ne_accessed p s x page N v r hx hr post
  have := post.table x (touch page) (List.getElem?_set_self hl)
  rw [if_neg (fun c => hne c.symm),
    secondChance_of_not_resident _ (fun c => hr ((resident_touch page).1 c)), ite_self] at this
  exact this

/-- Where an entry other than the accessed one comes from, after an eviction. -/
theorem origin_after_evict (p : Nat) (s : SimState) (x : Nat) (page : PTableEntry)
    (N v : Nat) (r : VictimResult) (hlen : s.pageTable.length = p)
    (post : VictimPost (s.pageTable.set x (touch page)) p s.i N v r)
    (j : Nat) (e : PTableEntry) (hj : j ≠ x) (he : r.pageTable[j]? = some e) :
    ∃ e0, s.pageTable[j]? = some e0 ∧
      ((j = v ∧ resident e0 ∧ e = { frame := -1, vr := andNotMask (secondChance e0).vr VALID }) ∨
       (j ≠ v ∧ (e = secondChance e0 ∨ e = e0))) := by
  have hjl : j < s.pageTable.length := by
    have := lt_of_getElem? _ _ _ he
    rw [post.length] at this
    omega
  obtain ⟨e0, he0⟩ := getElem?_of_lt s.pageTable j hjl
  have he1 : (s.pageTable.set x (touch page))[j]? = some e0 := by
    rw [List.getElem?_set_ne (fun c => hj c.symm)]; exact he0
  have ht := post.table j e0 he1
  rw [he] at ht
  have ht := Option.some.inj ht
  refine ⟨e0, he0, ?_⟩
  by_cases hv : j = v
  · left
    rw [if_pos hv] at ht
    obtain ⟨ev, hev, hrv, _⟩ := post.frame
    rw [← hv, he1] at hev
    rw [← Option.some.inj hev] at hrv
    exact ⟨hv, hrv, ht⟩
  · right
    rw [if_neg hv] at ht
    refine ⟨hv, ?_⟩
    split at ht
    · exact Or.inl ht
    · exact Or.inr ht

theorem SimInv_evict (p : Nat) (f : Int) (s : SimState) (x : Nat) (page : PTableEntry)
    (N v : Nat) (r : VictimResult) (hp : 0 < p)
    (hinv : SimInv p f s) (hx : s.pageTable[x]? = some page) (hr : ¬ resident page)
    (ho : s.numFramesOpen = 0)
    (post : VictimPost (s.pageTable.set x (touch page)) p s.i N v r) :
    SimInv p f
      { pageTable := r.pageTable.set x
          { frame := r.newlyOpenFrame, vr := orMask (touch page).vr VALID },
        numFramesOpen := s.numFramesOpen,
        numPageFaults := s.numPageFaults + 1,
        i := r.i } := by
  have hx2 := accessed_after_evict p s x page N v r hx hr post
  have hvx := victim_ne_accessed p s x page N v r hx hr post
  obtain ⟨ev, hev, hrv, hfv⟩ := post.frame
  rw [List.getElem?_set_ne (fun c => hvx c.symm)] at hev
  have horigin := origin_after_evict p s x page N v r hinv.length post
  -- resident entries of the new table other than `x` are resident entries of the old one
  have key : ∀ (j : Nat) (e : PTableEntry), j ≠ x → r.pageTable[j]? = some e → resident e →
      ∃ e0, s.pageTable[j]? = some e0 ∧ resident e0 ∧ e0.frame = e.frame ∧ j ≠ v := by
    intro j e hj he hre
    obtain ⟨e0, he0, h | h⟩ := horigin j e hj he
    · obtain ⟨_, _, rfl⟩ := h
      exact absurd hre (resident_andNotValid _ _)
    · obtain ⟨hjv, rfl | rfl⟩ := h
      · exact ⟨e0, he0, (resident_secondChance e0).1 hre, (secondChance_frame e0).symm, hjv⟩
      · exact ⟨e, he0, hre, rfl, hjv⟩
  refine
    { length := by simp [post.length]
      hand := by rw [post.hand]; exact Nat.mod_lt _ hp
      open_nonneg := hinv.open_nonneg
      count := ?_
      frames := ?_
      distinct := ?_
      noStale := ?_ }
  · have h1 := countResident_set r.pageTable x (touch page)
      { frame := r.newlyOpenFrame, vr := orMask (touch page).vr VALID } hx2
    rw [if_neg (fun c => hr ((resident_touch page).1 c)), if_pos (resident_orValid _ _)] at h1
    have h2 := countResident_set s.pageTable x page (touch page) hx
    rw [if_neg hr, if_neg (fun c => hr ((resident_touch page).1 c))] at h2
    have h3 := post.count
    have h4 := hinv.count
    simp only
    omega
  · intro j e he
    rcases getElem?_set_cases _ _ _ _ _ he with ⟨rfl, rfl⟩ | ⟨hj, hj'⟩
    · refine ⟨fun _ => ?_, fun c => absurd (resident_orValid _ _) c⟩
      have := (hinv.frames v ev hev).1 hrv
      simp only
      rw [hfv]
      exact this
    · obtain ⟨e0, he0, h | h⟩ := horigin j e hj hj'
      · obtain ⟨_, _, rfl⟩ := h
        exact ⟨fun c => absurd c (resident_andNotValid _ _), fun _ => rfl⟩
      · have hold := hinv.frames j e0 he0
        obtain ⟨_, rfl | rfl⟩ := h
        · rw [resident_secondChance, secondChance_frame]; exact hold
        · exact hold
  · intro j1 j2 e1 e2 h1 h2 hne hr1 hr2
    rcases getElem?_set_cases _ _ _ _ _ h1 with ⟨rfl, rfl⟩ | ⟨hj1, hj1'⟩
    · rcases getElem?_set_cases _ _ _ _ _ h2 with ⟨rfl, rfl⟩ | ⟨hj2, hj2'⟩
      · exact absurd rfl hne
      · obtain ⟨a2, ha2, hra2, hfa2, hj2v⟩ := key j2 e2 hj2 hj2' hr2
        simp only
        rw [hfv, ← hfa2]
        exact hinv.distinct v j2 ev a2 hev ha2 (fun c => hj2v c.symm) hrv hra2
    · obtain ⟨a1, ha1, hra1, hfa1, hj1v⟩ := key j1 e1 hj1 hj1' hr1
      rcases getElem?_set_cases _ _ _ _ _ h2 with ⟨rfl, rfl⟩ | ⟨hj2, hj2'⟩
      · simp only
        rw [hfv, ← hfa1]
        exact hinv.distinct j1 v a1 ev ha1 hev hj1v hra1 hrv
      · obtain ⟨a2, ha2, hra2, hfa2, _⟩ := key j2 e2 hj2 hj2' hr2
        rw [← hfa1, ← hfa2]
        exact hinv.distinct j1 j2 a1 a2 ha1 ha2 hne hra1 hra2
  · intro j e he hnr
    rcases getElem?_set_cases _ _ _ _ _ he with ⟨rfl, rfl⟩ | ⟨hj, hj'⟩
    · exact absurd (resident_orValid _ _) hnr
    · obtain ⟨e0, he0, h | h⟩ := horigin j e hj hj'
      · obtain ⟨_, hr0, rfl⟩ := h
        rw [referenced_andNotValid]
        exact not_referenced_secondChance e0 hr0
      · obtain ⟨_, rfl | rfl⟩ := h
        · have hnr0 : ¬ resident e0 := fun c => hnr ((resident_secondChance e0).2 c)
          rw [secondChance_of_not_resident e0 hnr0]
          exact hinv.noStale j e0 he0 hnr0
        · exact hinv.noStale j e he0 hnr

/-- With a frame count of at least one, every table handed to `FindVictim`
has a resident entry, so the call returns within `2 * p` iterations. -/
theorem evict_call_returns (fuel p : Nat) (f : Int) (s : SimState) (x : Nat)
    (page : PTableEntry) (hf : 1 ≤ f) (hfuel : 2 * p ≤ fuel) (hinv : SimInv p f s)
    (hx : s.pageTable[x]? = some page) (hr : ¬ resident page) (ho : s.numFramesOpen = 0) :
    (countResident (s.pageTable.set x (touch page)) : Int) = f ∧
    ∃ N v r, VictimPost (s.pageTable.set x (touch page)) p s.i N v r ∧
      FindVictim fuel (s.pageTable.set x (touch page)) p s.i = Run.ret r := by
  have h2 := countResident_set s.pageTable x page (touch page) hx
  rw [if_neg hr, if_neg (fun c => hr ((resident_touch page).1 c))] at h2
  have h4 := hinv.count
  have hcnt : (countResident (s.pageTable.set x (touch page)) : Int) = f := by omega
  refine ⟨hcnt, ?_⟩
  have hres := exists_resident_of_count (s.pageTable.set x (touch page)) (by omega)
  obtain ⟨N, v, r, post⟩ := FindVictim_post (s.pageTable.set x (touch page)) p s.i
    (by simp [hinv.length]) hinv.hand hres
  refine ⟨N, v, r, post, ?_⟩
  have hN := post.iters_le
  have e1 : fuel = N + (fuel - N) := by omega
  rw [e1]
  exact post.returns _

/-- One processed reference: the iteration returns, keeps the invariant and
counts at most one fault. -/
theorem access_step (fuel p : Nat) (f : Int) (s : SimState) (x : Nat) (hf : 1 ≤ f)
    (hfuel : 2 * p ≤ fuel) (hx : x < p) (hinv : SimInv p f s) :
    ∃ s1, access fuel p s x = Run.ret s1 ∧ SimInv p f s1 ∧
      s.numPageFaults ≤ s1.numPageFaults ∧ s1.numPageFaults ≤ s.numPageFaults + 1 := by
  have hp : 0 < p := by omega
  obtain ⟨page, hpage⟩ := getElem?_of_lt s.pageTable x (by rw [hinv.length]; exact hx)
  by_cases hr : resident page
  · refine ⟨_, access_hit fuel p s x page hpage hr, SimInv_hit p f s x page hinv hpage hr, ?_, ?_⟩
    · simp
    · simp
  · by_cases ho : s.numFramesOpen = 0
    · obtain ⟨_, N, v, r, post, hret⟩ := evict_call_returns fuel p f s x page hf hfuel hinv
        hpage hr ho
      have hx2 := accessed_after_evict p s x page N v r hpage hr post
      refine ⟨_, access_evict fuel p s x page r (touch page) hpage hr ho hret hx2,
        SimInv_evict p f s x page N v r hp hinv hpage hr ho post, ?_, ?_⟩
      · simp
      · simp
    · refine ⟨_, access_open fuel p s x page hpage hr ho,
        SimInv_open p f s x page hinv hpage hr ho, ?_, ?_⟩
      · simp
      · simp

theorem simLoop_cons (fuel p : Nat) (s s1 : SimState) (x : Nat) (rest : List Nat)
    (h : access fuel p s x = Run.ret s1) :
    simLoop fuel p s (x :: rest) = simLoop fuel p s1 rest := by
  rw [simLoop, h]

/-- The whole loop: it returns, keeps the invariant, and counts at most one
fault for each reference. -/
theorem simLoop_inv (fuel p : Nat) (f : Int) (hf : 1 ≤ f) (hfuel : 2 * p ≤ fuel) :
    ∀ (trace : List Nat) (s : SimState), (∀ y, y ∈ trace → y < p) → SimInv p f s →
    ∃ s1, simLoop fuel p s trace = Run.ret s1 ∧ SimInv p f s1 ∧
      s.numPageFaults ≤ s1.numPageFaults ∧
      s1.numPageFaults ≤ s.numPageFaults + (trace.length : Int)
  | [], s, _, hinv => ⟨s, rfl, hinv, le_refl _, by simp⟩
  | x :: rest, s, htr, hinv => by
    obtain ⟨s1, h1, hinv1, hlo1, hhi1⟩ :=
      access_step fuel p f s x hf hfuel (htr x (List.mem_cons_self x rest)) hinv
    obtain ⟨s2, h2, hinv2, hlo2, hhi2⟩ := simLoop_inv fuel p f hf hfuel rest s1
      (fun y hy => htr y (List.mem_cons_of_mem x hy)) hinv1
    refine ⟨s2, ?_, hinv2, by omega, ?_⟩
    · rw [simLoop_cons fuel p s s1 x rest h1]; exact h2
    · simp only [List.length_cons, Nat.cast_add, Nat.cast_one]
      omega

/-- The state after a part of the trace that has been processed. -/
theorem simLoop_inv_front (fuel p : Nat) (f : Int) (hf : 1 ≤ f) (hfuel : 2 * p ≤ fuel)
    (trace front rest : List Nat) (s : SimState) (htr : ∀ y, y ∈ trace → y < p)
    (hsplit : trace = front ++ rest) (hinv : SimInv p f s) :
    ∃ s1, simLoop fuel p s front = Run.ret s1 ∧ SimInv p f s1 := by
  obtain ⟨s1, h1, hinv1, _, _⟩ := simLoop_inv fuel p f hf hfuel front s
    (fun y hy => htr y (by rw [hsplit]; exact List.mem_append_left rest hy)) hinv
  exact ⟨s1, h1, hinv1⟩

theorem Simulate_eq (fuel : Nat) (ptrace : List Nat) (f : Int) (p i : Nat) (s : SimState)
    (h : simLoop fuel p (initState p f i) ptrace = Run.ret s) :
    Simulate fuel ptrace f p i = Run.ret s.numPageFaults := by
  rw [Simulate, h]

/-! ## Theorems about `Simulate` -/

/-- Claim C1. For a page count `p ≥ 1` (forced by the hand lying in `[0, p)`),
a frame count `f ≥ 1`, a starting hand in `[0, p)` and a trace over `[0, p)`,
`Simulate` returns (every call of `FindVictim` needs at most `2 * p`
iterations) and the returned fault count lies between `0` and the trace
length. -/
theorem Simulate_fault_bounds (p : Nat) (f : Int) (h : Nat) (trace : List Nat) (fuel : Nat)
    (hf : 1 ≤ f) (hh : h < p) (htr : ∀ y, y ∈ trace → y < p) (hfuel : 2 * p ≤ fuel) :
    ∃ k, Simulate fuel trace f p h = Run.ret k ∧ 0 ≤ k ∧ k ≤ (trace.length : Int) := by
  obtain ⟨s, hs, _, hlo, hhi⟩ := simLoop_inv fuel p f hf hfuel trace (initState p f h) htr
    (SimInv_init p f h (by omega) hh)
  refine ⟨s.numPageFaults, Simulate_eq fuel trace f p h s hs, ?_, ?_⟩
  · simpa [initState] using hlo
  · simpa [initState] using hhi

theorem Simulate_fault_bounds_witness :
    ∃ k, Simulate 10 [0, 1, 2, 3, 0, 1, 4, 0, 1, 2, 3, 4] 3 5 0 = Run.ret k ∧ 0 ≤ k ∧
      k ≤ (([0, 1, 2, 3, 0, 1, 4, 0, 1, 2, 3, 4] : List Nat).length : Int) :=
  Simulate_fault_bounds 5 3 0 [0, 1, 2, 3, 0, 1, 4, 0, 1, 2, 3, 4] 10 (by decide) (by decide)
    (by decide) (by decide)

/-- Claim C5. On a table of size `p` with a resident entry and the hand in
`[0, p)`, `FindVictim` returns within `2 * p` loop iterations (one iteration
examines one entry). -/
theorem FindVictim_bounded_scan (pt : List PTableEntry) (p h : Nat) (hlen : pt.length = p)
    (hh : h < p) (hres : ∃ (j : Nat) (e : PTableEntry), pt[j]? = some e ∧ resident e) :
    ∃ r, FindVictim (2 * p) pt p h = Run.ret r := by
  obtain ⟨N, v, r, post⟩ := FindVictim_post pt p h hlen hh hres
  have hN := post.iters_le
  refine ⟨r, ?_⟩
  have e1 : 2 * p = N + (2 * p - N) := by omega
  rw [e1]
  exact post.returns _

theorem FindVictim_bounded_scan_witness :
    ∃ r, FindVictim (2 * 3)
      [{ frame := 0, vr := 3 }, { frame := -1, vr := 0 }, { frame := 1, vr := 3 }] 3 1 =
      Run.ret r :=
  FindVictim_bounded_scan
    [{ frame := 0, vr := 3 }, { frame := -1, vr := 0 }, { frame := 1, vr := 3 }] 3 1 rfl
    (by decide) ⟨0, { frame := 0, vr := 3 }, rfl, by decide⟩

/-- With no resident entry in a one-entry table the scan never returns. -/
theorem FindVictim_single_nonresident (fuel : Nat) :
    FindVictim fuel [{ frame := -1, vr := 1 }] 1 0 = Run.timeout := by
  induction fuel with
  | zero => rfl
  | succ n ih =>
    rw [FindVictim_next n [{ frame := -1, vr := 1 }] 1 0 [{ frame := -1, vr := 1 }] 0 (by decide)]
    exact ih

theorem Simulate_no_frames (fuel : Nat) : Simulate fuel [0] 0 1 0 = Run.timeout := by
  have hc : classify (initState 1 0 0) 0 =
      Run.ret (AccessKind.evict [{ frame := -1, vr := 1 }]) := by decide
  have hv : FindVictim fuel [{ frame := -1, vr := 1 }] 1 (initState 1 0 0).i = Run.timeout :=
    FindVictim_single_nonresident fuel
  have ha : access fuel 1 (initState 1 0 0) 0 = Run.timeout := by
    rw [access, hc]
    simp only
    rw [hv]
  rw [Simulate, simLoop, ha]

/-- Claim C6, as stated, fails: with `pageCount = 1`, `frameCount = 0`, the hand
at `0` and the trace `[0]`, no number of loop iterations lets `Simulate`
return. -/
theorem Simulate_not_total_without_frames :
    ¬ ∃ (fuel : Nat) (k : Int), Simulate fuel [0] 0 1 0 = Run.ret k := by
  rintro ⟨fuel, k, hk⟩
  rw [Simulate_no_frames fuel] at hk
  exact Run.noConfusion hk

/-- Claim C6, amended. For a starting hand in `[0, p)`, a trace over `[0, p)`
and a frame count `f ≥ 1` (or any non-negative `f` when the trace is empty),
`Simulate` returns a fault count: no call of `FindVictim` needs more than
`2 * p` iterations and no access leaves the page table. -/
theorem Simulate_total (p : Nat) (f : Int) (h : Nat) (trace : List Nat) (fuel : Nat)
    (hf : 1 ≤ f ∨ (0 ≤ f ∧ trace = [])) (hh : h < p) (htr : ∀ y, y ∈ trace → y < p)
    (hfuel : 2 * p ≤ fuel) :
    ∃ k, Simulate fuel trace f p h = Run.ret k := by
  rcases hf with hf | ⟨_, rfl⟩
  · obtain ⟨s, hs, _⟩ := simLoop_inv fuel p f hf hfuel trace (initState p f h) htr
      (SimInv_init p f h (by omega) hh)
    exact ⟨s.numPageFaults, Simulate_eq fuel trace f p h s hs⟩
  · exact ⟨0, rfl⟩

theorem Simulate_total_witness :
    ∃ k, Simulate 10 [0, 1, 2, 3, 0, 1, 4, 0, 1, 2, 3, 4] 3 5 4 = Run.ret k :=
  Simulate_total 5 3 4 [0, 1, 2, 3, 0, 1, 4, 0, 1, 2, 3, 4] 10 (Or.inl (by decide))
    (by decide) (by decide) (by decide)

/-- Claim C7. With `f ≥ 1`, whenever the loop of `Simulate` reaches the call of
`FindVictim` (line 117), the table passed to it holds exactly `f` resident
entries, so at least one, and the call returns. -/
theorem Simulate_upholds_precondition (p : Nat) (f : Int) (h : Nat) (trace : List Nat)
    (fuel : Nat) (front rest : List Nat) (x : Nat) (s : SimState) (pt1 : List PTableEntry)
    (hf : 1 ≤ f) (hh : h < p) (htr : ∀ y, y ∈ trace → y < p) (hfuel : 2 * p ≤ fuel)
    (hsplit : trace = front ++ x :: rest)
    (hs : simLoop fuel p (initState p f h) front = Run.ret s)
    (hcall : classify s x = Run.ret (AccessKind.evict pt1)) :
    (countResident pt1 : Int) = f ∧
    (∃ (j : Nat) (e : PTableEntry), pt1[j]? = some e ∧ resident e) ∧
    ∃ r, FindVictim fuel pt1 p s.i = Run.ret r := by
  obtain ⟨s1, hs1, hinv⟩ := simLoop_inv_front fuel p f hf hfuel trace front (x :: rest)
    (initState p f h) htr hsplit (SimInv_init p f h (by omega) hh)
  rw [hs] at hs1
  have hss : s = s1 := by injection hs1
  subst hss
  have hx : x < p := htr x (by rw [hsplit]; simp)
  obtain ⟨page, hpage⟩ := getElem?_of_lt s.pageTable x (by rw [hinv.length]; exact hx)
  by_cases hr : resident page
  · rw [classify_hit s x page hpage hr] at hcall
    injection hcall with hc
    exact AccessKind.noConfusion hc
  · by_cases ho : s.numFramesOpen = 0
    · rw [classify_evict s x page hpage hr ho] at hcall
      injection hcall with hc
      injection hc with hpt
      subst hpt
      obtain ⟨hcnt, N, v, r, post, hret⟩ := evict_call_returns fuel p f s x page hf hfuel hinv
        hpage hr ho
      exact ⟨hcnt, exists_resident_of_count _ (by omega), r, hret⟩
    · rw [classify_open s x page hpage hr ho] at hcall
      injection hcall with hc
      exact AccessKind.noConfusion hc

theorem Simulate_upholds_precondition_witness :
    (countResident [{ frame := 0, vr := 3 }, { frame := -1, vr := 1 }] : Int) = 1 ∧
    (∃ (j : Nat) (e : PTableEntry),
      [({ frame := 0, vr := 3 } : PTableEntry), { frame := -1, vr := 1 }][j]? = some e ∧
        resident e) ∧
    ∃ r, FindVictim 4 [{ frame := 0, vr := 3 }, { frame := -1, vr := 1 }] 2 0 = Run.ret r :=
  Simulate_upholds_precondition 2 1 0 [0, 1] 4 [0] [] 1
    { pageTable := [{ frame := 0, vr := 3 }, { frame := -1, vr := 0 }],
      numFramesOpen := 0, numPageFaults := 1, i := 0 }
    [{ frame := 0, vr := 3 }, { frame := -1, vr := 1 }]
    (by decide) (by decide) (by decide) (by decide) rfl (by decide) (by decide)

/-- Claim C10. With `f ≥ 1`, initially and after every processed reference of
`Simulate`, each page-table entry has its frame in `[0, f)` exactly when its
resident bit is set, and has the sentinel frame `-1` otherwise. -/
theorem Simulate_frame_iff_resident (p : Nat) (f : Int) (h : Nat) (trace : List Nat)
    (fuel : Nat) (front rest : List Nat)
    (hf : 1 ≤ f) (hh : h < p) (htr : ∀ y, y ∈ trace → y < p) (hfuel : 2 * p ≤ fuel)
    (hsplit : trace = front ++ rest) :
    ∃ s, simLoop fuel p (initState p f h) front = Run.ret s ∧
      ∀ (j : Nat) (e : PTableEntry), s.pageTable[j]? = some e →
        ((0 ≤ e.frame ∧ e.frame < f) ↔ resident e) ∧ (¬ resident e → e.frame = -1) := by
  obtain ⟨s, hs, hinv⟩ := simLoop_inv_front fuel p f hf hfuel trace front rest
    (initState p f h) htr hsplit (SimInv_init p f h (by omega) hh)
  refine ⟨s, hs, ?_⟩
  intro j e he
  have hfr := hinv.frames j e he
  have hpos := hinv.open_nonneg
  refine ⟨⟨fun hrange => ?_, fun hr => ?_⟩, hfr.2⟩
  · by_contra hnr
    have := hfr.2 hnr
    omega
  · have := hfr.1 hr
    omega

theorem Simulate_frame_iff_resident_witness :
    ∃ s, simLoop 10 5 (initState 5 3 0) [0, 1, 2, 3, 0] = Run.ret s ∧
      ∀ (j : Nat) (e : PTableEntry), s.pageTable[j]? = some e →
        ((0 ≤ e.frame ∧ e.frame < 3) ↔ resident e) ∧ (¬ resident e → e.frame = -1) :=
  Simulate_frame_iff_resident 5 3 0 [0, 1, 2, 3, 0, 1, 4, 0, 1, 2, 3, 4] 10 [0, 1, 2, 3, 0]
    [1, 4, 0, 1, 2, 3, 4] (by decide) (by decide) (by decide) (by decide) rfl

/-! ## Theorems about `FindVictim` -/

theorem find?_map_range (g : Nat → Nat) (q : Nat → Bool) :
    ∀ (n k : Nat), k < n → q (g k) = true → (∀ m, m < k → q (g m) = false) →
    ((List.range n).map g).find? q = some (g k)
  | 0, _, hk, _, _ => absurd hk (Nat.not_lt_zero _)
  | n + 1, k, hk, hq, hmin => by
    rw [List.range_succ, List.map_append, List.find?_append]
    by_cases c : k < n
    · rw [find?_map_range g q n k c hq hmin]; rfl
    · have e : k = n := by omega
      subst e
      have hnone : ((List.range k).map g).find? q = none := by
        rw [List.find?_eq_none]
        intro y hy
        obtain ⟨m, hm, rfl⟩ := List.mem_map.1 hy
        rw [hmin m (List.mem_range.1 hm)]
        exact Bool.false_ne_true
      rw [hnone]
      simp [hq]

theorem find?_circular (p h k : Nat) (q : Nat → Bool) (hk : k < p) (hq : q (idx p h k) = true)
    (hmin : ∀ m, m < k → q (idx p h m) = false) :
    (circular p h).find? q = some (idx p h k) :=
  find?_map_range (idx p h) q p k hk hq hmin

theorem find?_circular_none (p h : Nat) (q : Nat → Bool)
    (hall : ∀ m, m < p → q (idx p h m) = false) : (circular p h).find? q = none := by
  unfold circular
  rw [List.find?_eq_none]
  intro y hy
  obtain ⟨m, hm, rfl⟩ := List.mem_map.1 hy
  rw [hall m (List.mem_range.1 hm)]
  exact Bool.false_ne_true

theorem clockVictim_of_post (pt : List PTableEntry) (p h N v : Nat) (r : VictimResult)
    (post : VictimPost pt p h N v r) : clockVictim pt p h = some v := by
  obtain ⟨k, hk, hv, hc | hc⟩ := post.choice
  · obtain ⟨hev, hmin⟩ := hc
    rw [hv] at hev
    unfold clockVictim
    rw [find?_circular p h k (evictableAt pt) hk hev hmin, hv]
  · obtain ⟨hall, hres, hmin⟩ := hc
    rw [hv] at hres
    unfold clockVictim
    rw [find?_circular_none p h (evictableAt pt) hall]
    simp only
    rw [find?_circular p h k (residentAt pt) hk hres hmin, hv]

/-- Claim C3. On a table of size `p` with a resident entry and the hand at
`h < p`, `FindVictim` returns; the entry it evicts is the one the
specification names (`clockVictim`: the first resident, not referenced entry
in circular order from `h`, else the first resident entry in circular order
from `h`), and the value returned is the frame that entry held before the
call. -/
theorem FindVictim_selects_clock_victim (pt : List PTableEntry) (p h : Nat)
    (hlen : pt.length = p) (hh : h < p)
    (hres : ∃ (j : Nat) (e : PTableEntry), pt[j]? = some e ∧ resident e) :
    ∃ (v : Nat) (e : PTableEntry) (r : VictimResult),
      clockVictim pt p h = some v ∧ pt[v]? = some e ∧ resident e ∧
      FindVictim (2 * p) pt p h = Run.ret r ∧ r.newlyOpenFrame = e.frame ∧
      ∃ e1, r.pageTable[v]? = some e1 ∧ ¬ resident e1 ∧ e1.frame = -1 := by
  obtain ⟨N, v, r, post⟩ := FindVictim_post pt p h hlen hh hres
  obtain ⟨e, he, hre, hfr⟩ := post.frame
  have hN := post.iters_le
  have e1 : 2 * p = N + (2 * p - N) := by omega
  refine ⟨v, e, r, clockVictim_of_post pt p h N v r post, he, hre, ?_, hfr, ?_⟩
  · rw [e1]; exact post.returns _
  · have ht := post.table v e he
    rw [if_pos rfl] at ht
    exact ⟨_, ht, resident_andNotValid _ _, rfl⟩

theorem FindVictim_selects_clock_victim_witness :
    (∃ (v : Nat) (e : PTableEntry) (r : VictimResult),
      clockVictim [{ frame := 5, vr := 3 }, { frame := 7, vr := 2 }, { frame := -1, vr := 0 }]
        3 0 = some v ∧
      [({ frame := 5, vr := 3 } : PTableEntry), { frame := 7, vr := 2 },
        { frame := -1, vr := 0 }][v]? = some e ∧ resident e ∧
      FindVictim (2 * 3)
        [{ frame := 5, vr := 3 }, { frame := 7, vr := 2 }, { frame := -1, vr := 0 }] 3 0 =
        Run.ret r ∧ r.newlyOpenFrame = e.frame ∧
      ∃ e1, r.pageTable[v]? = some e1 ∧ ¬ resident e1 ∧ e1.frame = -1) ∧
    clockVictim [{ frame := 5, vr := 3 }, { frame := 7, vr := 2 }, { frame := -1, vr := 0 }]
      3 0 = some 1 ∧
    FindVictim (2 * 3)
      [{ frame := 5, vr := 3 }, { frame := 7, vr := 2 }, { frame := -1, vr := 0 }] 3 0 =
      Run.ret { newlyOpenFrame := 7,
                pageTable := [{ frame := 5, vr := 2 }, { frame := -1, vr := 0 },
                  { frame := -1, vr := 0 }],
                i := 2 } ∧
    FindVictim (2 * 3)
      [{ frame := 5, vr := 3 }, { frame := -1, vr := 0 }, { frame := 7, vr := 2 }] 3 0 =
      Run.ret { newlyOpenFrame := 7,
                pageTable := [{ frame := 5, vr := 2 }, { frame := -1, vr := 0 },
                  { frame := -1, vr := 0 }],
                i := 0 } :=
  ⟨FindVictim_selects_clock_victim
      [{ frame := 5, vr := 3 }, { frame := 7, vr := 2 }, { frame := -1, vr := 0 }] 3 0 rfl
      (by decide) ⟨0, { frame := 5, vr := 3 }, rfl, by decide⟩,
    by decide, by decide, by decide⟩

theorem andNot_REFERENCE_bits (v b : Nat) (hb : 1 ≤ b) (hb8 : b < 8) :
    (andNotMask v REFERENCE).testBit b = v.testBit b := by
  rw [testBit_andNot_REFERENCE]
  have h0 : b ≠ 0 := by omega
  simp [hb8, h0]

theorem andNot_VALID_bits (v b : Nat) (hb : 2 ≤ b) (hb8 : b < 8) :
    (andNotMask v VALID).testBit b = v.testBit b := by
  rw [testBit_andNot_VALID]
  have h1 : b ≠ 1 := by omega
  simp [hb8, h1]

theorem secondChance_bits (e : PTableEntry) (b : Nat) (hb : 1 ≤ b) (hb8 : b < 8) :
    (secondChance e).vr.testBit b = e.vr.testBit b := by
  unfold secondChance
  split
  · exact andNot_REFERENCE_bits _ b hb hb8
  · rfl

/-- Claim C4. A call of `FindVictim` on a table of size `p` with a resident
entry and the hand at `h < p` runs exactly `N` iterations for some `N`,
examining the entries at `idx p h m` for `m < N`.  Exactly one entry `v`,
resident before, is non-resident with frame `-1` afterwards (its referenced
flag is clear and bits 2 to 7 of its `vr` are as before).  Every other
entry keeps its frame, its resident flag and bits 1 to 7 of `vr`; the only
change to it is that the referenced flag is cleared when it was resident,
referenced and examined.  Non-resident entries are unchanged. -/
theorem FindVictim_frame_effect (pt : List PTableEntry) (p h : Nat)
    (hlen : pt.length = p) (hh : h < p)
    (hres : ∃ (j : Nat) (e : PTableEntry), pt[j]? = some e ∧ resident e) :
    ∃ (N v : Nat) (r : VictimResult),
      (∀ fuel, FindVictim (N + fuel) pt p h = Run.ret r) ∧
      (∀ n, n < N → FindVictim n pt p h = Run.timeout) ∧
      r.pageTable.length = p ∧
      (∃ e e1, pt[v]? = some e ∧ resident e ∧ r.pageTable[v]? = some e1 ∧
        ¬ resident e1 ∧ e1.frame = -1 ∧ ¬ referenced e1 ∧
        ∀ b, 2 ≤ b → b < 8 → e1.vr.testBit b = e.vr.testBit b) ∧
      (∀ (j : Nat) (e : PTableEntry), j ≠ v → pt[j]? = some e →
        r.pageTable[j]? = some
          (if resident e ∧ referenced e ∧ ∃ m, m < N ∧ idx p h m = j
           then { e with vr := andNotMask e.vr REFERENCE } else e)) ∧
      (∀ (j : Nat) (e e1 : PTableEntry), j ≠ v → pt[j]? = some e →
        r.pageTable[j]? = some e1 →
        e1.frame = e.frame ∧ (resident e1 ↔ resident e) ∧
          ∀ b, 1 ≤ b → b < 8 → e1.vr.testBit b = e.vr.testBit b) ∧
      (∀ (j : Nat) (e : PTableEntry), pt[j]? = some e → ¬ resident e →
        r.pageTable[j]? = some e) := by
  obtain ⟨N, v, r, post⟩ := FindVictim_post pt p h hlen hh hres
  obtain ⟨e, he, hre, hfr⟩ := post.frame
  have hother : ∀ (j : Nat) (e : PTableEntry), j ≠ v → pt[j]? = some e →
      r.pageTable[j]? = some
        (if resident e ∧ referenced e ∧ ∃ m, m < N ∧ idx p h m = j
         then { e with vr := andNotMask e.vr REFERENCE } else e) := by
    intro j ej hj hej
    rw [post.table j ej hej, if_neg hj]
    congr 1
    by_cases hex : ∃ m, m < N ∧ idx p h m = j
    · rw [if_pos hex]
      unfold secondChance
      by_cases hrr : resident ej ∧ referenced ej
      · rw [if_pos hrr, if_pos ⟨hrr.1, hrr.2, hex⟩]
      · rw [if_neg hrr, if_neg (fun c => hrr ⟨c.1, c.2.1⟩)]
    · rw [if_neg hex, if_neg (fun c => hex c.2.2)]
  refine ⟨N, v, r, post.returns, post.running, post.length, ?_, hother, ?_, ?_⟩
  · have ht := post.table v e he
    rw [if_pos rfl] at ht
    refine ⟨e, _, he, hre, ht, resident_andNotValid _ _, rfl, ?_, ?_⟩
    · rw [referenced_andNotValid]
      exact not_referenced_secondChance e hre
    · intro b hb hb8
      show (andNotMask (secondChance e).vr VALID).testBit b = e.vr.testBit b
      rw [andNot_VALID_bits _ b hb hb8, secondChance_bits e b (by omega) hb8]
  · intro j ej e1 hj hej he1
    rw [hother j ej hj hej] at he1
    have he1 := (Option.some.inj he1).symm
    subst he1
    split
    · exact ⟨rfl, resident_andNotRef _ _, fun b hb hb8 => andNot_REFERENCE_bits _ b hb hb8⟩
    · exact ⟨rfl, Iff.rfl, fun _ _ _ => rfl⟩
  · intro j ej hej hnr
    have hj : j ≠ v := by
      intro c
      subst c
      rw [he] at hej
      rw [Option.some.inj hej] at hre
      exact hnr hre
    rw [hother j ej hj hej, if_neg (fun c => hnr c.1)]

theorem FindVictim_frame_effect_witness :
    ∃ (N v : Nat) (r : VictimResult),
      (∀ fuel, FindVictim (N + fuel)
        [{ frame := 5, vr := 3 }, { frame := -1, vr := 0 }, { frame := 7, vr := 3 }] 3 2 =
          Run.ret r) ∧
      (∀ n, n < N → FindVictim n
        [{ frame := 5, vr := 3 }, { frame := -1, vr := 0 }, { frame := 7, vr := 3 }] 3 2 =
          Run.timeout) ∧
      r.pageTable.length = 3 ∧
      (∃ e e1, [({ frame := 5, vr := 3 } : PTableEntry), { frame := -1, vr := 0 },
          { frame := 7, vr := 3 }][v]? = some e ∧ resident e ∧
        r.pageTable[v]? = some e1 ∧
        ¬ resident e1 ∧ e1.frame = -1 ∧ ¬ referenced e1 ∧
        ∀ b, 2 ≤ b → b < 8 → e1.vr.testBit b = e.vr.testBit b) ∧
      (∀ (j : Nat) (e : PTableEntry), j ≠ v →
        [({ frame := 5, vr := 3 } : PTableEntry), { frame := -1, vr := 0 },
          { frame := 7, vr := 3 }][j]? = some e →
        r.pageTable[j]? = some
          (if resident e ∧ referenced e ∧ ∃ m, m < N ∧ idx 3 2 m = j
           then { e with vr := andNotMask e.vr REFERENCE } else e)) ∧
      (∀ (j : Nat) (e e1 : PTableEntry), j ≠ v →
        [({ frame := 5, vr := 3 } : PTableEntry), { frame := -1, vr := 0 },
          { frame := 7, vr := 3 }][j]? = some e →
        r.pageTable[j]? = some e1 →
        e1.frame = e.frame ∧ (resident e1 ↔ resident e) ∧
          ∀ b, 1 ≤ b → b < 8 → e1.vr.testBit b = e.vr.testBit b) ∧
      (∀ (j : Nat) (e : PTableEntry),
        [({ frame := 5, vr := 3 } : PTableEntry), { frame := -1, vr := 0 },
          { frame := 7, vr := 3 }][j]? = some e → ¬ resident e →
        r.pageTable[j]? = some e) :=
  FindVictim_frame_effect
    [{ frame := 5, vr := 3 }, { frame := -1, vr := 0 }, { frame := 7, vr := 3 }] 3 2 rfl
    (by decide) ⟨0, { frame := 5, vr := 3 }, rfl, by decide⟩

/-- A scan with a second sweep, evaluated: all three entries are examined
once, the two resident ones lose their referenced flag, and the fourth
iteration evicts the entry under the hand. -/
theorem FindVictim_second_sweep_example :
    FindVictim 4
      [{ frame := 5, vr := 3 }, { frame := -1, vr := 0 }, { frame := 7, vr := 3 }] 3 2 =
      Run.ret { newlyOpenFrame := 7,
                pageTable := [{ frame := 5, vr := 2 }, { frame := -1, vr := 0 },
                  { frame := -1, vr := 0 }],
                i := 0 } ∧
    FindVictim 3
      [{ frame := 5, vr := 3 }, { frame := -1, vr := 0 }, { frame := 7, vr := 3 }] 3 2 =
      Run.timeout := by
  constructor <;> decide

/-! ## All pages fit: `frameCount ≥ pageCount` -/

theorem residentAt_set (pt : List PTableEntry) (x j : Nat) (a : PTableEntry)
    (hx : x < pt.length) :
    residentAt (pt.set x a) j = if j = x then decide (resident a) else residentAt pt j := by
  unfold residentAt
  by_cases hj : j = x
  · subst hj
    rw [List.getElem?_set_self hx, if_pos rfl]
  · rw [List.getElem?_set_ne (fun c => hj c.symm), if_neg hj]

theorem countResident_le (pt : List PTableEntry) : countResident pt ≤ pt.length :=
  List.countP_le_length _

theorem fit_step (fuel p : Nat) (f : Int) (s : SimState) (x : Nat) (seen : List Nat)
    (hfit : FitInv p f s) (hx : x < p)
    (hseen : ∀ j, residentAt s.pageTable j = true ↔ j ∈ seen)
    (hfaults : s.numPageFaults = (seen.toFinset.card : Int)) :
    ∃ s1, access fuel p s x = Run.ret s1 ∧ FitInv p f s1 ∧
      (∀ j, residentAt s1.pageTable j = true ↔ j ∈ seen ++ [x]) ∧
      s1.numPageFaults = ((seen ++ [x]).toFinset.card : Int) := by
  have hxl : x < s.pageTable.length := by rw [hfit.length]; exact hx
  obtain ⟨page, hpage⟩ := getElem?_of_lt s.pageTable x hxl
  have hfin : (seen ++ [x]).toFinset = insert x seen.toFinset := by
    ext y; simp [or_comm]
  by_cases hr : resident page
  · refine ⟨_, access_hit fuel p s x page hpage hr, ?_, ?_, ?_⟩
    · refine { length := by simp [hfit.length], count := ?_, fits := hfit.fits }
      have hc := countResident_set s.pageTable x page (touch page) hpage
      rw [if_pos hr, if_pos ((resident_touch page).2 hr)] at hc
      have := hfit.count
      simp only
      omega
    · intro j
      simp only
      rw [residentAt_set _ _ _ _ hxl]
      by_cases hj : j = x
      · subst hj
        rw [if_pos rfl]
        simp [(resident_touch page).2 hr]
      · rw [if_neg hj, hseen j]
        simp [hj]
    · have hmem : x ∈ seen.toFinset := by
        rw [List.mem_toFinset, ← hseen x]
        exact (residentAt_eq_true _ _ _ hpage).2 hr
      rw [hfin, Finset.insert_eq_of_mem hmem]
      exact hfaults
  · have hc := countResident_set s.pageTable x page
      { frame := s.numFramesOpen - 1, vr := orMask (touch page).vr VALID } hpage
    rw [if_neg hr, if_pos (resident_orValid _ _)] at hc
    have hle := countResident_le (s.pageTable.set x
      { frame := s.numFramesOpen - 1, vr := orMask (touch page).vr VALID })
    rw [List.length_set, hfit.length] at hle
    have hcnt := hfit.count
    have hfits := hfit.fits
    have ho : s.numFramesOpen ≠ 0 := by omega
    refine ⟨_, access_open fuel p s x page hpage hr ho, ?_, ?_, ?_⟩
    · refine { length := by simp [hfit.length], count := ?_, fits := hfit.fits }
      simp only
      omega
    · intro j
      simp only
      rw [residentAt_set _ _ _ _ hxl]
      by_cases hj : j = x
      · subst hj
        rw [if_pos rfl]
        simp [resident_orValid]
      · rw [if_neg hj, hseen j]
        simp [hj]
    · have hmem : x ∉ seen.toFinset := by
        rw [List.mem_toFinset, ← hseen x]
        intro c
        exact hr ((residentAt_eq_true _ _ _ hpage).1 c)
      rw [hfin, Finset.card_insert_of_not_mem hmem]
      simp only
      rw [hfaults]
      push_cast
      rfl

theorem fit_loop (fuel p : Nat) (f : Int) :
    ∀ (trace seen : List Nat) (s : SimState), FitInv p f s → (∀ y, y ∈ trace → y < p) →
    (∀ j, residentAt s.pageTable j = true ↔ j ∈ seen) →
    s.numPageFaults = (seen.toFinset.card : Int) →
    ∃ s1, simLoop fuel p s trace = Run.ret s1 ∧ FitInv p f s1 ∧
      s1.numPageFaults = ((seen ++ trace).toFinset.card : Int)
  | [], seen, s, hfit, _, _, hfaults => ⟨s, rfl, hfit, by rw [List.append_nil]; exact hfaults⟩
  | x :: rest, seen, s, hfit, htr, hseen, hfaults => by
    obtain ⟨s1, h1, hfit1, hseen1, hfaults1⟩ := fit_step fuel p f s x seen hfit
      (htr x (List.mem_cons_self x rest)) hseen hfaults
    obtain ⟨s2, h2, hfit2, hfaults2⟩ := fit_loop fuel p f rest (seen ++ [x]) s1 hfit1
      (fun y hy => htr y (List.mem_cons_of_mem x hy)) hseen1 hfaults1
    refine ⟨s2, ?_, hfit2, ?_⟩
    · rw [simLoop_cons fuel p s s1 x rest h1]; exact h2
    · rw [hfaults2, List.append_assoc]
      rfl

/-- When all pages fit, a faulting page finds an open frame. -/
theorem fit_open_frame (p : Nat) (f : Int) (s : SimState) (x : Nat) (page : PTableEntry)
    (hfit : FitInv p f s) (hpage : s.pageTable[x]? = some page) (hr : ¬ resident page) :
    s.numFramesOpen ≠ 0 := by
  have hc := countResident_set s.pageTable x page
    { frame := 0, vr := orMask (touch page).vr VALID } hpage
  rw [if_neg hr, if_pos (resident_orValid _ _)] at hc
  have hle := countResident_le (s.pageTable.set x
    { frame := 0, vr := orMask (touch page).vr VALID })
  rw [List.length_set, hfit.length] at hle
  have hcnt := hfit.count
  have hfits := hfit.fits
  omega

/-- When all pages fit, no reference reaches the call of `FindVictim`. -/
theorem fit_never_evicts (p : Nat) (f : Int) (s : SimState) (x : Nat)
    (pt1 : List PTableEntry) (hfit : FitInv p f s) (hx : x < p) :
    classify s x ≠ Run.ret (AccessKind.evict pt1) := by
  obtain ⟨page, hpage⟩ := getElem?_of_lt s.pageTable x (by rw [hfit.length]; exact hx)
  intro hcall
  by_cases hr : resident page
  · rw [classify_hit s x page hpage hr] at hcall
    injection hcall with hc
    exact AccessKind.noConfusion hc
  · rw [classify_open s x page hpage hr (fit_open_frame p f s x page hfit hpage hr)] at hcall
    injection hcall with hc
    exact AccessKind.noConfusion hc

theorem FitInv_init (p : Nat) (f : Int) (h : Nat) (hfp : (p : Int) ≤ f) :
    FitInv p f (initState p f h) where
  length := by simp [initState]
  count := by rw [countResident_init]; simp [initState]
  fits := hfp

theorem residentAt_init (p : Nat) (f : Int) (h j : Nat) :
    residentAt (initState p f h).pageTable j = true ↔ j ∈ ([] : List Nat) := by
  constructor
  · intro hj
    unfold residentAt at hj
    split at hj
    · rename_i e he
      rw [initState_getElem? p f h j e he] at hj
      exact absurd (by simpa using hj) not_resident_init
    · exact Bool.noConfusion hj
  · intro hj
    exact absurd hj (List.not_mem_nil j)

/-- Claim C2. When the frame count is at least the page count, `Simulate`
returns the number of distinct page values of the trace, for every starting
hand and whatever bound is put on the iterations of `FindVictim`, the bound
`0` included; and `FindVictim` is never invoked: no reference of the trace
takes the branch of line 117. -/
theorem Simulate_all_pages_fit (p : Nat) (f : Int) (h : Nat) (trace : List Nat) (fuel : Nat)
    (hfp : (p : Int) ≤ f) (htr : ∀ y, y ∈ trace → y < p) :
    Simulate fuel trace f p h = Run.ret (trace.dedup.length : Int) ∧
    ∀ (front rest : List Nat) (x : Nat) (s : SimState) (pt1 : List PTableEntry),
      trace = front ++ x :: rest → simLoop fuel p (initState p f h) front = Run.ret s →
      classify s x ≠ Run.ret (AccessKind.evict pt1) := by
  constructor
  · obtain ⟨s, hs, _, hfaults⟩ := fit_loop fuel p f trace [] (initState p f h)
      (FitInv_init p f h hfp) htr (residentAt_init p f h) (by simp [initState])
    rw [Simulate_eq fuel trace f p h s hs, hfaults, List.nil_append, List.card_toFinset]
  · intro front rest x s pt1 hsplit hs
    obtain ⟨s1, hs1, hfit1, _⟩ := fit_loop fuel p f front [] (initState p f h)
      (FitInv_init p f h hfp)
      (fun y hy => htr y (by rw [hsplit]; exact List.mem_append_left _ hy))
      (residentAt_init p f h) (by simp [initState])
    rw [hs] at hs1
    have hss : s = s1 := by injection hs1
    subst hss
    exact fit_never_evicts p f s x pt1 hfit1 (htr x (by rw [hsplit]; simp))

theorem Simulate_all_pages_fit_witness :
    Simulate 0 [0, 1, 0, 1, 0, 1, 0, 1] 4 2 0 = Run.ret 2 ∧
    ∀ (front rest : List Nat) (x : Nat) (s : SimState) (pt1 : List PTableEntry),
      [0, 1, 0, 1, 0, 1, 0, 1] = front ++ x :: rest →
      simLoop 0 2 (initState 2 4 0) front = Run.ret s →
      classify s x ≠ Run.ret (AccessKind.evict pt1) :=
  Simulate_all_pages_fit 2 4 0 [0, 1, 0, 1, 0, 1, 0, 1] 0 (by decide) (by decide)

/-! ## Theorems about the trace generator -/

theorem RandNotJ_spec (r j k : Nat) (hj : j < k) (hk : 2 ≤ k) :
    ∃ x, RandNotJ r j k = Run.ret x ∧ x < k ∧ x ≠ j := by
  have hmod : r % (k - 1) < k - 1 := Nat.mod_lt _ (by omega)
  unfold RandNotJ
  rw [if_neg (by omega), if_neg (by omega)]
  refine ⟨_, rfl, ?_, ?_⟩
  · split <;> omega
  · split <;> omega

theorem genLoop_succ (rand : Nat → Nat) (p todo i prev x : Nat) (xs : List Nat)
    (hx : RandNotJ (rand i) prev p = Run.ret x)
    (hxs : genLoop rand p todo (i + 1) x = Run.ret xs) :
    genLoop rand p (todo + 1) i prev = Run.ret (x :: xs) := by
  rw [genLoop, hx]
  simp only
  rw [hxs]

theorem genLoop_spec (rand : Nat → Nat) (p : Nat) (hp : 2 ≤ p) :
    ∀ (todo i prev : Nat), prev < p →
    ∃ xs, genLoop rand p todo i prev = Run.ret xs ∧ xs.length = todo ∧
      (∀ y, y ∈ xs → y < p) ∧
      ∀ (k a b : Nat), (prev :: xs)[k]? = some a → (prev :: xs)[k + 1]? = some b → b ≠ a
  | 0, i, prev, _ => by
    refine ⟨[], rfl, rfl, fun y hy => absurd hy (List.not_mem_nil y), ?_⟩
    intro k a b _ hb
    simp at hb
  | todo + 1, i, prev, hprev => by
    obtain ⟨x, hx, hxp, hxne⟩ := RandNotJ_spec (rand i) prev p hprev hp
    obtain ⟨xs, hxs, hlen, hrange, hadj⟩ := genLoop_spec rand p hp todo (i + 1) x hxp
    refine ⟨x :: xs, genLoop_succ rand p todo i prev x xs hx hxs, by simp [hlen], ?_, ?_⟩
    · intro y hy
      rcases List.mem_cons.1 hy with rfl | hy
      · exact hxp
      · exact hrange y hy
    · intro k a b ha hb
      cases k with
      | zero =>
        simp at ha hb
        subst ha; subst hb
        exact hxne
      | succ k =>
        exact hadj k a b (by simpa using ha) (by simpa using hb)

theorem PageTraceGenerator_spec (rand : Nat → Nat) (n p : Nat) (hn : 1 ≤ n) (hp : 2 ≤ p) :
    ∃ ptrace, PageTraceGenerator rand n p = Run.ret ptrace ∧ ptrace.length = n ∧
      (∀ y, y ∈ ptrace → y < p) ∧
      ∀ (k a b : Nat), ptrace[k]? = some a → ptrace[k + 1]? = some b → b ≠ a := by
  have hfirst : rand 0 % p < p := Nat.mod_lt _ (by omega)
  obtain ⟨xs, hxs, hlen, hrange, hadj⟩ := genLoop_spec rand p hp (n - 1) 1 (rand 0 % p) hfirst
  refine ⟨rand 0 % p :: xs, ?_, by simp [hlen]; omega, ?_, hadj⟩
  · unfold PageTraceGenerator
    rw [if_neg (by omega), if_neg (by omega), hxs]
  · intro y hy
    rcases List.mem_cons.1 hy with rfl | hy
    · exact hfirst
    · exact hrange y hy

/-- Claim C8. For `n ≥ 2`, `p ≥ 2` and every sequence `rand` of values of the
random source, `PageTraceGenerator(n, p)` returns a trace of `n` elements in
which no element equals the one before it. -/
theorem PageTraceGenerator_no_repeat (rand : Nat → Nat) (n p : Nat) (hn : 2 ≤ n) (hp : 2 ≤ p) :
    ∃ ptrace, PageTraceGenerator rand n p = Run.ret ptrace ∧ ptrace.length = n ∧
      ∀ i, 1 ≤ i → i < n →
        ∃ a b, ptrace[i - 1]? = some a ∧ ptrace[i]? = some b ∧ b ≠ a := by
  obtain ⟨ptrace, htrace, hlen, _, hadj⟩ := PageTraceGenerator_spec rand n p (by omega) hp
  refine ⟨ptrace, htrace, hlen, ?_⟩
  intro i hi1 hin
  obtain ⟨a, ha⟩ : ∃ a, ptrace[i - 1]? = some a :=
    ⟨ptrace[i - 1], List.getElem?_eq_getElem (by omega)⟩
  obtain ⟨b, hb⟩ : ∃ b, ptrace[i]? = some b := ⟨ptrace[i], List.getElem?_eq_getElem (by omega)⟩
  refine ⟨a, b, ha, hb, ?_⟩
  have hb1 : ptrace[i - 1 + 1]? = some b := by
    rw [Nat.sub_add_cancel hi1]; exact hb
  exact hadj (i - 1) a b ha hb1

theorem PageTraceGenerator_no_repeat_witness :
    ∃ ptrace, PageTraceGenerator (fun c => 7 * c + 3) 16 8 = Run.ret ptrace ∧
      ptrace.length = 16 ∧
      ∀ i, 1 ≤ i → i < 16 →
        ∃ a b, ptrace[i - 1]? = some a ∧ ptrace[i]? = some b ∧ b ≠ a :=
  PageTraceGenerator_no_repeat (fun c => 7 * c + 3) 16 8 (by decide) (by decide)

/-- Every element the loop of `PageTraceGenerator` stores is what the call
`RandNotJ(ptrace[i - 1], p)` of that iteration returns: the call at index `i`
takes the value `rand i`, passes its assertion and divides by a non-zero
modulus. -/
theorem genLoop_calls (rand : Nat → Nat) (p : Nat) (hp : 2 ≤ p) :
    ∀ (todo i prev : Nat), prev < p →
    ∃ xs, genLoop rand p todo i prev = Run.ret xs ∧
      ∀ (k a : Nat), k < todo → (prev :: xs)[k]? = some a →
        a < p ∧ p - 1 ≠ 0 ∧
        ∃ b, RandNotJ (rand (i + k)) a p = Run.ret b ∧ (prev :: xs)[k + 1]? = some b
  | 0, i, prev, _ => ⟨[], rfl, fun k a hk _ => absurd hk (Nat.not_lt_zero k)⟩
  | todo + 1, i, prev, hprev => by
    obtain ⟨x, hx, hxp, _⟩ := RandNotJ_spec (rand i) prev p hprev hp
    obtain ⟨xs, hxs, hcalls⟩ := genLoop_calls rand p hp todo (i + 1) x hxp
    refine ⟨x :: xs, genLoop_succ rand p todo i prev x xs hx hxs, ?_⟩
    intro k a hk ha
    cases k with
    | zero =>
      simp at ha
      subst ha
      exact ⟨hprev, by omega, x, hx, by simp⟩
    | succ k =>
      have ha1 : (x :: xs)[k]? = some a := by simpa using ha
      obtain ⟨hap, hmod, b, hb, hb1⟩ := hcalls k a (by omega) ha1
      refine ⟨hap, hmod, b, ?_, by simpa using hb1⟩
      have e : i + (k + 1) = i + 1 + k := by omega
      rw [e]
      exact hb

theorem PageTraceGenerator_calls (rand : Nat → Nat) (n p : Nat) (hn : 1 ≤ n) (hp : 2 ≤ p) :
    ∃ ptrace, PageTraceGenerator rand n p = Run.ret ptrace ∧
      ∀ (i a : Nat), 1 ≤ i → i < n → ptrace[i - 1]? = some a →
        a < p ∧ p - 1 ≠ 0 ∧
        ∃ b, RandNotJ (rand i) a p = Run.ret b ∧ ptrace[i]? = some b := by
  have hfirst : rand 0 % p < p := Nat.mod_lt _ (by omega)
  obtain ⟨xs, hxs, hcalls⟩ := genLoop_calls rand p hp (n - 1) 1 (rand 0 % p) hfirst
  refine ⟨rand 0 % p :: xs, ?_, ?_⟩
  · unfold PageTraceGenerator
    rw [if_neg (by omega), if_neg (by omega), hxs]
  · intro i a hi1 hin ha
    obtain ⟨hap, hmod, b, hb, hb1⟩ := hcalls (i - 1) a (by omega) ha
    have e1 : 1 + (i - 1) = i := by omega
    have e2 : i - 1 + 1 = i := by omega
    rw [e1] at hb
    rw [e2] at hb1
    exact ⟨hap, hmod, b, hb, hb1⟩

/-- Claim C9. For `n ≥ 1`, `p ≥ 2` and every sequence `rand` of values of the
random source, `PageTraceGenerator(n, p)` returns a trace of exactly `n`
elements, each in `[0, p)`.  Every iteration `1 ≤ i < n` of its loop calls
`RandNotJ(j, k)` with `j = ptrace[i - 1] < k = p`, so the assertion `j < k`
holds and the modulus `k - 1` is not zero; the call returns and its value is
the element stored at index `i`. -/
theorem PageTraceGenerator_length_range (rand : Nat → Nat) (n p : Nat) (hn : 1 ≤ n)
    (hp : 2 ≤ p) :
    ∃ ptrace, PageTraceGenerator rand n p = Run.ret ptrace ∧ ptrace.length = n ∧
      (∀ y, y ∈ ptrace → y < p) ∧
      ∀ (i j : Nat), 1 ≤ i → i < n → ptrace[i - 1]? = some j →
        j < p ∧ p - 1 ≠ 0 ∧
        ∃ b, RandNotJ (rand i) j p = Run.ret b ∧ ptrace[i]? = some b := by
  obtain ⟨ptrace, htrace, hlen, hrange, _⟩ := PageTraceGenerator_spec rand n p hn hp
  obtain ⟨ptrace2, htrace2, hcalls⟩ := PageTraceGenerator_calls rand n p hn hp
  rw [htrace] at htrace2
  have e : ptrace = ptrace2 := by injection htrace2
  subst e
  exact ⟨ptrace, htrace, hlen, hrange, hcalls⟩

theorem PageTraceGenerator_length_range_witness :
    (∃ ptrace, PageTraceGenerator (fun c => 5 * c + 11) 16 8 = Run.ret ptrace ∧
      ptrace.length = 16 ∧ (∀ y, y ∈ ptrace → y < 8) ∧
      ∀ (i j : Nat), 1 ≤ i → i < 16 → ptrace[i - 1]? = some j →
        j < 8 ∧ 8 - 1 ≠ 0 ∧
        ∃ b, RandNotJ ((fun c => 5 * c + 11) i) j 8 = Run.ret b ∧ ptrace[i]? = some b) ∧
    PageTraceGenerator (fun c => 5 * c + 11) 16 8 =
      Run.ret [3, 2, 0, 6, 3, 1, 7, 4, 2, 0, 6, 3, 1, 7, 4, 2] ∧
    RandNotJ ((fun c => 5 * c + 11) 1) 3 8 = Run.ret 2 ∧
    RandNotJ ((fun c => 5 * c + 11) 3) 0 8 = Run.ret 6 :=
  ⟨PageTraceGenerator_length_range (fun c => 5 * c + 11) 16 8 (by decide) (by decide),
    by decide, by decide, by decide⟩

/-! ## More invariants of `Simulate` -/

/-- Claim C11. With `f ≥ 1`, initially and after every processed reference of
`Simulate`, two distinct resident pages hold distinct frames, and the number
of resident pages plus the open-frame counter is `f`, so at most `f` pages
are resident. -/
theorem Simulate_one_page_per_frame (p : Nat) (f : Int) (h : Nat) (trace : List Nat)
    (fuel : Nat) (front rest : List Nat)
    (hf : 1 ≤ f) (hh : h < p) (htr : ∀ y, y ∈ trace → y < p) (hfuel : 2 * p ≤ fuel)
    (hsplit : trace = front ++ rest) :
    ∃ s, simLoop fuel p (initState p f h) front = Run.ret s ∧
      (∀ (j1 j2 : Nat) (e1 e2 : PTableEntry), s.pageTable[j1]? = some e1 →
        s.pageTable[j2]? = some e2 → j1 ≠ j2 → resident e1 → resident e2 →
        e1.frame ≠ e2.frame) ∧
      (countResident s.pageTable : Int) + s.numFramesOpen = f ∧
      (countResident s.pageTable : Int) ≤ f := by
  obtain ⟨s, hs, hinv⟩ := simLoop_inv_front fuel p f hf hfuel trace front rest
    (initState p f h) htr hsplit (SimInv_init p f h (by omega) hh)
  have hc := hinv.count
  have ho := hinv.open_nonneg
  exact ⟨s, hs, hinv.distinct, hc, by omega⟩

theorem Simulate_one_page_per_frame_witness :
    ∃ s, simLoop 10 5 (initState 5 3 0) [0, 1, 2, 3, 0] = Run.ret s ∧
      (∀ (j1 j2 : Nat) (e1 e2 : PTableEntry), s.pageTable[j1]? = some e1 →
        s.pageTable[j2]? = some e2 → j1 ≠ j2 → resident e1 → resident e2 →
        e1.frame ≠ e2.frame) ∧
      (countResident s.pageTable : Int) + s.numFramesOpen = 3 ∧
      (countResident s.pageTable : Int) ≤ 3 :=
  Simulate_one_page_per_frame 5 3 0 [0, 1, 2, 3, 0, 1, 4, 0, 1, 2, 3, 4] 10 [0, 1, 2, 3, 0]
    [1, 4, 0, 1, 2, 3, 4] (by decide) (by decide) (by decide) (by decide) rfl

/-- Claim C15. With `f ≥ 1`, initially and after every processed reference of
`Simulate`, every non-resident page has its referenced bit clear; and in the
table as line 110 leaves it for the next reference `x`, the only entry that
can be non-resident with the referenced bit set is the one of `x` itself. -/
theorem Simulate_no_stale_referenced (p : Nat) (f : Int) (h : Nat) (trace : List Nat)
    (fuel : Nat) (front rest : List Nat)
    (hf : 1 ≤ f) (hh : h < p) (htr : ∀ y, y ∈ trace → y < p) (hfuel : 2 * p ≤ fuel)
    (hsplit : trace = front ++ rest) :
    ∃ s, simLoop fuel p (initState p f h) front = Run.ret s ∧
      (∀ (j : Nat) (e : PTableEntry), s.pageTable[j]? = some e →
        ¬ resident e → ¬ referenced e) ∧
      ∀ (x : Nat) (page : PTableEntry), s.pageTable[x]? = some page →
        ∀ (j : Nat) (e : PTableEntry),
          (s.pageTable.set x { page with vr := orMask page.vr REFERENCE })[j]? = some e →
          ¬ resident e → referenced e → j = x := by
  obtain ⟨s, hs, hinv⟩ := simLoop_inv_front fuel p f hf hfuel trace front rest
    (initState p f h) htr hsplit (SimInv_init p f h (by omega) hh)
  refine ⟨s, hs, hinv.noStale, ?_⟩
  intro x page _ j e he hnr hrf
  rcases getElem?_set_cases _ _ _ _ _ he with ⟨hj, _⟩ | ⟨_, hj⟩
  · exact hj
  · exact absurd hrf (hinv.noStale j e hj hnr)

theorem Simulate_no_stale_referenced_witness :
    ∃ s, simLoop 10 5 (initState 5 3 0) [0, 1, 2, 3, 0] = Run.ret s ∧
      (∀ (j : Nat) (e : PTableEntry), s.pageTable[j]? = some e →
        ¬ resident e → ¬ referenced e) ∧
      ∀ (x : Nat) (page : PTableEntry), s.pageTable[x]? = some page →
        ∀ (j : Nat) (e : PTableEntry),
          (s.pageTable.set x { page with vr := orMask page.vr REFERENCE })[j]? = some e →
          ¬ resident e → referenced e → j = x :=
  Simulate_no_stale_referenced 5 3 0 [0, 1, 2, 3, 0, 1, 4, 0, 1, 2, 3, 4] 10 [0, 1, 2, 3, 0]
    [1, 4, 0, 1, 2, 3, 4] (by decide) (by decide) (by decide) (by decide) rfl

/-! ## The clock hand -/

theorem FindVictimCalls_cons (fuel p i : Nat) (pt : List PTableEntry)
    (rest : List (List PTableEntry)) (r : VictimResult)
    (h : FindVictim fuel pt p i = Run.ret r) :
    FindVictimCalls fuel p i (pt :: rest) = FindVictimCalls fuel p r.i rest := by
  rw [FindVictimCalls, h]

theorem FindVictimCalls_hand (fuel p : Nat) (hfuel : 2 * p ≤ fuel) :
    ∀ (tables : List (List PTableEntry)) (h : Nat), h < p →
    (∀ pt, pt ∈ tables →
      pt.length = p ∧ ∃ (j : Nat) (e : PTableEntry), pt[j]? = some e ∧ resident e) →
    ∃ h1, FindVictimCalls fuel p h tables = Run.ret h1 ∧ h1 < p
  | [], h, hh, _ => ⟨h, rfl, hh⟩
  | pt :: rest, h, hh, hall => by
    obtain ⟨hlen, hres⟩ := hall pt (List.mem_cons_self pt rest)
    obtain ⟨N, v, r, post⟩ := FindVictim_post pt p h hlen hh hres
    have hN := post.iters_le
    have hret : FindVictim fuel pt p h = Run.ret r := by
      have e1 : fuel = N + (fuel - N) := by omega
      rw [e1]; exact post.returns _
    have hri : r.i < p := by rw [post.hand]; exact Nat.mod_lt _ (by omega)
    obtain ⟨h1, hh1, hlt⟩ := FindVictimCalls_hand fuel p hfuel rest r.i hri
      (fun q hq => hall q (List.mem_cons_of_mem pt hq))
    exact ⟨h1, by rw [FindVictimCalls_cons fuel p h pt rest r hret]; exact hh1, hlt⟩

/-- Claim C14. On a table of size `p` with a resident entry and the hand at
`h < p`, `FindVictim` returns after evicting an index `v` (the entry the
specification names; resident before, non-resident after) with the static
hand at `(v + 1) % p`, which is again in `[0, p)`.  Hence any sequence of
calls with the same `p`, each on a table of size `p` with a resident entry,
returns without an access outside the table and leaves the hand in
`[0, p)`. -/
theorem FindVictim_hand_after_eviction (pt : List PTableEntry) (p h : Nat)
    (hlen : pt.length = p) (hh : h < p)
    (hres : ∃ (j : Nat) (e : PTableEntry), pt[j]? = some e ∧ resident e) :
    (∃ (v : Nat) (r : VictimResult), FindVictim (2 * p) pt p h = Run.ret r ∧
      clockVictim pt p h = some v ∧
      (∃ e e1, pt[v]? = some e ∧ resident e ∧ r.pageTable[v]? = some e1 ∧ ¬ resident e1) ∧
      r.i = (v + 1) % p ∧ r.i < p) ∧
    ∀ (fuel : Nat) (tables : List (List PTableEntry)), 2 * p ≤ fuel →
      (∀ q, q ∈ tables →
        q.length = p ∧ ∃ (j : Nat) (e : PTableEntry), q[j]? = some e ∧ resident e) →
      ∃ h1, FindVictimCalls fuel p h (pt :: tables) = Run.ret h1 ∧ h1 < p := by
  constructor
  · obtain ⟨N, v, r, post⟩ := FindVictim_post pt p h hlen hh hres
    obtain ⟨e, he, hre, _⟩ := post.frame
    have hN := post.iters_le
    have e1 : 2 * p = N + (2 * p - N) := by omega
    have ht := post.table v e he
    rw [if_pos rfl] at ht
    refine ⟨v, r, by rw [e1]; exact post.returns _, clockVictim_of_post pt p h N v r post,
      ⟨e, _, he, hre, ht, resident_andNotValid _ _⟩, post.hand, ?_⟩
    rw [post.hand]; exact Nat.mod_lt _ (by omega)
  · intro fuel tables hfuel hall
    refine FindVictimCalls_hand fuel p hfuel (pt :: tables) h hh ?_
    intro q hq
    rcases List.mem_cons.1 hq with rfl | hq
    · exact ⟨hlen, hres⟩
    · exact hall q hq

theorem FindVictim_hand_after_eviction_witness :
    (∃ (v : Nat) (r : VictimResult),
      FindVictim (2 * 3)
        [{ frame := 5, vr := 3 }, { frame := -1, vr := 0 }, { frame := 7, vr := 2 }] 3 1 =
        Run.ret r ∧
      clockVictim [{ frame := 5, vr := 3 }, { frame := -1, vr := 0 }, { frame := 7, vr := 2 }]
        3 1 = some v ∧
      (∃ e e1, [({ frame := 5, vr := 3 } : PTableEntry), { frame := -1, vr := 0 },
          { frame := 7, vr := 2 }][v]? = some e ∧ resident e ∧
        r.pageTable[v]? = some e1 ∧ ¬ resident e1) ∧
      r.i = (v + 1) % 3 ∧ r.i < 3) ∧
    ∀ (fuel : Nat) (tables : List (List PTableEntry)), 2 * 3 ≤ fuel →
      (∀ q, q ∈ tables →
        q.length = 3 ∧ ∃ (j : Nat) (e : PTableEntry), q[j]? = some e ∧ resident e) →
      ∃ h1, FindVictimCalls fuel 3 1
        ([{ frame := 5, vr := 3 }, { frame := -1, vr := 0 }, { frame := 7, vr := 2 }] ::
          tables) = Run.ret h1 ∧ h1 < 3 :=
  FindVictim_hand_after_eviction
    [{ frame := 5, vr := 3 }, { frame := -1, vr := 0 }, { frame := 7, vr := 2 }] 3 1 rfl
    (by decide) ⟨0, { frame := 5, vr := 3 }, rfl, by decide⟩

/-- The scan of the table above from hand `1`, evaluated: index `2` is evicted
and the hand wraps to `0`. -/
theorem FindVictim_hand_wraps_example :
    FindVictim (2 * 3)
      [{ frame := 5, vr := 3 }, { frame := -1, vr := 0 }, { frame := 7, vr := 2 }] 3 1 =
      Run.ret { newlyOpenFrame := 7,
                pageTable := [{ frame := 5, vr := 3 }, { frame := -1, vr := 0 },
                  { frame := -1, vr := 0 }],
                i := 0 } := by
  decide

/-! ## The scan without a resident entry -/

theorem scanStep_nonresident (pt : List PTableEntry) (p h : Nat) (hlen : pt.length = p)
    (hh : h < p) (hnone : ∀ (j : Nat) (e : PTableEntry), pt[j]? = some e → ¬ resident e) :
    scanStep pt p h = ScanStep.next pt ((h + 1) % p) := by
  obtain ⟨e, he⟩ := getElem?_of_lt pt h (by omega)
  have hnr := hnone h e he
  rw [scanStep_skip pt p h e (by omega) he (fun c => hnr c.1),
    secondChance_of_not_resident e hnr, set_self_of_getElem? pt h e he]

theorem FindVictim_nonresident (pt : List PTableEntry) (p : Nat) (hlen : pt.length = p)
    (hnone : ∀ (j : Nat) (e : PTableEntry), pt[j]? = some e → ¬ resident e) :
    ∀ (fuel h : Nat), h < p → FindVictim fuel pt p h = Run.timeout
  | 0, _, _ => rfl
  | fuel + 1, h, hh => by
    rw [FindVictim_next fuel pt p h pt ((h + 1) % p)
      (scanStep_nonresident pt p h hlen hh hnone)]
    exact FindVictim_nonresident pt p hlen hnone fuel ((h + 1) % p) (Nat.mod_lt _ (by omega))

theorem scanIter_nonresident (pt : List PTableEntry) (p : Nat) (hlen : pt.length = p)
    (hnone : ∀ (j : Nat) (e : PTableEntry), pt[j]? = some e → ¬ resident e) :
    ∀ (n h : Nat), h < p → scanIter p n pt h = ScanStep.next pt (idx p h n)
  | 0, h, hh => by rw [idx_zero p h hh]; rfl
  | n + 1, h, hh => by
    rw [scanIter, scanStep_nonresident pt p h hlen hh hnone]
    simp only
    rw [scanIter_nonresident pt p hlen hnone n ((h + 1) % p) (Nat.mod_lt _ (by omega)),
      idx_shift]

/-- Claim C19. On a table of size `p` in which no entry is resident, from any
hand `h < p`, `FindVictim` does not return within any number of loop
iterations, and after any number `n` of iterations the loop is still running
on the unchanged table (with the hand at `(h + n) % p`). -/
theorem FindVictim_endless_scan (pt : List PTableEntry) (p h : Nat)
    (hlen : pt.length = p) (hh : h < p)
    (hnone : ∀ (j : Nat) (e : PTableEntry), pt[j]? = some e → ¬ resident e) :
    (∀ fuel, FindVictim fuel pt p h = Run.timeout) ∧
    ∀ n, scanIter p n pt h = ScanStep.next pt ((h + n) % p) :=
  ⟨fun fuel => FindVictim_nonresident pt p hlen hnone fuel h hh,
   fun n => scanIter_nonresident pt p hlen hnone n h hh⟩

theorem FindVictim_endless_scan_witness :
    (∀ fuel, FindVictim fuel [{ frame := -1, vr := 0 }, { frame := -1, vr := 1 }] 2 1 =
      Run.timeout) ∧
    ∀ n, scanIter 2 n [{ frame := -1, vr := 0 }, { frame := -1, vr := 1 }] 1 =
      ScanStep.next [{ frame := -1, vr := 0 }, { frame := -1, vr := 1 }] ((1 + n) % 2) :=
  FindVictim_endless_scan [{ frame := -1, vr := 0 }, { frame := -1, vr := 1 }] 2 1 rfl
    (by decide)
    (by
      intro j e he
      have hj : j < 2 := lt_of_getElem? _ _ _ he
      have h2 : j = 0 ∨ j = 1 := by omega
      rcases h2 with rfl | rfl
      · have : e = { frame := -1, vr := 0 } := (Option.some.inj he).symm
        subst this; decide
      · have : e = { frame := -1, vr := 1 } := (Option.some.inj he).symm
        subst this; decide)

/-! ## The referenced bit of the evicted page -/

/-- The four ways one loop iteration of `FindVictim` can go. -/
theorem scanStep_cases (pt : List PTableEntry) (p h : Nat) :
    scanStep pt p h = ScanStep.fault ∨
    (∃ e, pt[h]? = some e ∧ ¬ resident e ∧
      scanStep pt p h = ScanStep.next pt ((h + 1) % p)) ∨
    (∃ e, pt[h]? = some e ∧ resident e ∧ ¬ referenced e ∧
      scanStep pt p h = ScanStep.done e.frame
        (pt.set h { frame := -1, vr := andNotMask e.vr VALID }) ((h + 1) % p)) ∨
    (∃ e, pt[h]? = some e ∧ resident e ∧ referenced e ∧
      scanStep pt p h = ScanStep.next
        (pt.set h { e with vr := andNotMask e.vr REFERENCE }) ((h + 1) % p)) := by
  by_cases hp : p = 0
  · left; rw [scanStep, if_pos hp]
  · cases he : pt[h]? with
    | none => left; rw [scanStep, if_neg hp, he]
    | some e =>
      right
      by_cases hr : resident e
      · by_cases hrf : referenced e
        · right; right
          refine ⟨e, rfl, hr, hrf, ?_⟩
          have := scanStep_skip pt p h e (by omega) he (fun c => c.2 hrf)
          rw [this]
          unfold secondChance
          rw [if_pos ⟨hr, hrf⟩]
        · right; left
          exact ⟨e, rfl, hr, hrf, scanStep_evict pt p h e (by omega) he hr hrf⟩
      · left
        refine ⟨e, rfl, hr, ?_⟩
        rw [scanStep_skip pt p h e (by omega) he (fun c => hr c.1),
          secondChance_of_not_resident e hr, set_self_of_getElem? pt h e he]

/-- Whatever the table, the hand and the number of iterations: an entry that
a returning call of `FindVictim` has turned from resident to non-resident
has its referenced bit clear. -/
theorem evicted_not_referenced :
    ∀ (fuel : Nat) (pt : List PTableEntry) (p h : Nat) (r : VictimResult),
    FindVictim fuel pt p h = Run.ret r →
    ∀ (v : Nat) (e0 e : PTableEntry), pt[v]? = some e0 → resident e0 →
      r.pageTable[v]? = some e → ¬ resident e → ¬ referenced e
  | 0, pt, p, h, r, hret => by
    rw [FindVictim] at hret
    exact Run.noConfusion hret
  | fuel + 1, pt, p, h, r, hret => by
    intro v e0 e hv0 hr0 hv hnr
    rcases scanStep_cases pt p h with hs | ⟨eh, _, _, hs⟩ | ⟨eh, heh, hreh, hnfeh, hs⟩ |
      ⟨eh, heh, hreh, _, hs⟩
    · rw [FindVictim, hs] at hret
      exact Run.noConfusion hret
    · rw [FindVictim_next fuel pt p h _ _ hs] at hret
      exact evicted_not_referenced fuel pt p _ r hret v e0 e hv0 hr0 hv hnr
    · rw [FindVictim_done fuel pt p h _ _ _ hs] at hret
      injection hret with hret
      subst hret
      rcases getElem?_set_cases _ _ _ _ _ hv with ⟨_, rfl⟩ | ⟨_, hv1⟩
      · rw [referenced_andNotValid]
        exact hnfeh
      · rw [hv0] at hv1
        rw [← Option.some.inj hv1] at hnr
        exact absurd hr0 hnr
    · rw [FindVictim_next fuel pt p h _ _ hs] at hret
      by_cases hvh : v = h
      · subst hvh
        have e1 : eh = e0 := Option.some.inj (heh.symm.trans hv0)
        subst e1
        have hl := lt_of_getElem? _ _ _ hv0
        exact evicted_not_referenced fuel _ p _ r hret v
          { eh with vr := andNotMask eh.vr REFERENCE } e
          (List.getElem?_set_self hl) ((resident_andNotRef _ _).2 hr0) hv hnr
      · exact evicted_not_referenced fuel _ p _ r hret v e0 e
          (by rw [List.getElem?_set_ne (fun c => hvh c.symm)]; exact hv0) hr0 hv hnr

/-- Claim C16, as stated, fails: there is no page table, hand position and
number of iterations for which `FindVictim` returns with the referenced bit
of an evicted page (resident before the call, non-resident after it) still
set. -/
theorem FindVictim_never_leaves_referenced_bit :
    ¬ ∃ (fuel : Nat) (pt : List PTableEntry) (p h : Nat) (r : VictimResult) (v : Nat)
        (e0 e : PTableEntry),
      FindVictim fuel pt p h = Run.ret r ∧ pt[v]? = some e0 ∧ resident e0 ∧
        r.pageTable[v]? = some e ∧ ¬ resident e ∧ referenced e := by
  rintro ⟨fuel, pt, p, h, r, v, e0, e, hret, hv0, hr0, hv, hnr, hrf⟩
  exact evicted_not_referenced fuel pt p h r hret v e0 e hv0 hr0 hv hnr hrf

/-- Claim C16, amended. The evicting statement of `FindVictim` (line 135)
clears only the resident bit: it stores `vr & ~VALID`, which keeps bit 0 and
bits 2 to 7.  It runs only on an entry whose referenced bit is clear, so on
a table of size `p` with a resident entry and the hand at `h < p` the call
returns with the referenced bit of the evicted page clear. -/
theorem FindVictim_evicted_referenced_clear (pt : List PTableEntry) (p h : Nat)
    (hlen : pt.length = p) (hh : h < p)
    (hres : ∃ (j : Nat) (e : PTableEntry), pt[j]? = some e ∧ resident e) :
    (∀ (e : PTableEntry), pt[h]? = some e → resident e → ¬ referenced e →
      scanStep pt p h = ScanStep.done e.frame
        (pt.set h { frame := -1, vr := andNotMask e.vr VALID }) ((h + 1) % p) ∧
      ∀ b, b ≠ 1 → b < 8 → (andNotMask e.vr VALID).testBit b = e.vr.testBit b) ∧
    ∃ (v : Nat) (r : VictimResult) (e0 e : PTableEntry),
      FindVictim (2 * p) pt p h = Run.ret r ∧ pt[v]? = some e0 ∧ resident e0 ∧
        r.pageTable[v]? = some e ∧ ¬ resident e ∧ ¬ referenced e := by
  constructor
  · intro e he hr hnf
    refine ⟨scanStep_evict pt p h e (by omega) he hr hnf, ?_⟩
    intro b hb hb8
    rw [testBit_andNot_VALID]
    simp [hb8, hb]
  · obtain ⟨N, v, r, post⟩ := FindVictim_post pt p h hlen hh hres
    obtain ⟨e0, he0, hre0, _⟩ := post.frame
    have hN := post.iters_le
    have e1 : 2 * p = N + (2 * p - N) := by omega
    have hret : FindVictim (2 * p) pt p h = Run.ret r := by rw [e1]; exact post.returns _
    have ht := post.table v e0 he0
    rw [if_pos rfl] at ht
    exact ⟨v, r, e0, _, hret, he0, hre0, ht, resident_andNotValid _ _,
      evicted_not_referenced (2 * p) pt p h r hret v e0 _ he0 hre0 ht
        (resident_andNotValid _ _)⟩

theorem FindVictim_evicted_referenced_clear_witness :
    (∀ (e : PTableEntry),
      [({ frame := 5, vr := 3 } : PTableEntry), { frame := 7, vr := 3 }][0]? = some e →
      resident e → ¬ referenced e →
      scanStep [{ frame := 5, vr := 3 }, { frame := 7, vr := 3 }] 2 0 =
        ScanStep.done e.frame
          ([({ frame := 5, vr := 3 } : PTableEntry), { frame := 7, vr := 3 }].set 0
            { frame := -1, vr := andNotMask e.vr VALID }) ((0 + 1) % 2) ∧
      ∀ b, b ≠ 1 → b < 8 → (andNotMask e.vr VALID).testBit b = e.vr.testBit b) ∧
    ∃ (v : Nat) (r : VictimResult) (e0 e : PTableEntry),
      FindVictim (2 * 2) [{ frame := 5, vr := 3 }, { frame := 7, vr := 3 }] 2 0 = Run.ret r ∧
        [({ frame := 5, vr := 3 } : PTableEntry), { frame := 7, vr := 3 }][v]? = some e0 ∧
        resident e0 ∧ r.pageTable[v]? = some e ∧ ¬ resident e ∧ ¬ referenced e :=
  FindVictim_evicted_referenced_clear [{ frame := 5, vr := 3 }, { frame := 7, vr := 3 }] 2 0
    rfl (by decide) ⟨0, { frame := 5, vr := 3 }, rfl, by decide⟩

/-- A table in which every resident entry is referenced, evaluated: the
victim loses its referenced bit on the first sweep and is evicted on the
second with `vr = 0`. -/
theorem FindVictim_referenced_victim_example :
    FindVictim (2 * 2) [{ frame := 5, vr := 3 }, { frame := 7, vr := 3 }] 2 0 =
      Run.ret { newlyOpenFrame := 5,
                pageTable := [{ frame := -1, vr := 0 }, { frame := 7, vr := 2 }],
                i := 1 } := by
  decide

/-! ## `RandNotJ` as a re-indexing -/

theorem RandNotJ_eq (r j k : Nat) (hj : j < k) (hk : 2 ≤ k) :
    RandNotJ r j k =
      Run.ret (if r % (k - 1) < j then r % (k - 1) else r % (k - 1) + 1) := by
  rw [RandNotJ, if_neg (by omega), if_neg (by omega)]

/-- Claim C17. For `k ≥ 2` and `j < k`, the map `res ↦ (res if res < j else
res + 1)` of `RandNotJ` is a bijection from `[0, k - 1)` onto `[0, k)` without
`j`; `RandNotJ` applies it to `rand() % (k - 1)`, so every value other than
`j` below `k` is returned for exactly one residue and `j` for none. -/
theorem RandNotJ_reindexes (j k : Nat) (hk : 2 ≤ k) (hj : j < k) :
    (∀ r, RandNotJ r j k =
      Run.ret (if r % (k - 1) < j then r % (k - 1) else r % (k - 1) + 1)) ∧
    Set.BijOn (fun res => if res < j then res else res + 1)
      {res | res < k - 1} {x | x < k ∧ x ≠ j} ∧
    (∀ x, x < k → x ≠ j → ∃! res, res < k - 1 ∧ RandNotJ res j k = Run.ret x) ∧
    ∀ r, RandNotJ r j k ≠ Run.ret j := by
  refine ⟨fun r => RandNotJ_eq r j k hj hk, ⟨?_, ?_, ?_⟩, ?_, ?_⟩
  · intro res hres
    simp only [Set.mem_setOf_eq] at hres ⊢
    split <;> omega
  · intro a ha b hb hab
    simp only [Set.mem_setOf_eq] at ha hb
    simp only at hab
    split at hab <;> split at hab <;> omega
  · intro x hx
    simp only [Set.mem_setOf_eq] at hx
    by_cases c : x < j
    · refine ⟨x, by simp only [Set.mem_setOf_eq]; omega, ?_⟩
      simp only
      rw [if_pos c]
    · refine ⟨x - 1, by simp only [Set.mem_setOf_eq]; omega, ?_⟩
      simp only
      rw [if_neg (by omega)]
      omega
  · intro x hx hxj
    by_cases c : x < j
    · refine ⟨x, ⟨by omega, ?_⟩, ?_⟩
      · rw [RandNotJ_eq x j k hj hk, Nat.mod_eq_of_lt (by omega), if_pos c]
      · rintro y ⟨hy, hyx⟩
        rw [RandNotJ_eq y j k hj hk, Nat.mod_eq_of_lt hy] at hyx
        injection hyx with hyx
        split at hyx <;> omega
    · refine ⟨x - 1, ⟨by omega, ?_⟩, ?_⟩
      · rw [RandNotJ_eq (x - 1) j k hj hk, Nat.mod_eq_of_lt (by omega), if_neg (by omega)]
        congr 1
        omega
      · rintro y ⟨hy, hyx⟩
        rw [RandNotJ_eq y j k hj hk, Nat.mod_eq_of_lt hy] at hyx
        injection hyx with hyx
        split at hyx <;> omega
  · intro r hr
    rw [RandNotJ_eq r j k hj hk] at hr
    injection hr with hr
    split at hr <;> omega

theorem RandNotJ_reindexes_witness :
    (∀ r, RandNotJ r 3 8 =
      Run.ret (if r % (8 - 1) < 3 then r % (8 - 1) else r % (8 - 1) + 1)) ∧
    Set.BijOn (fun res => if res < 3 then res else res + 1)
      {res | res < 8 - 1} {x | x < 8 ∧ x ≠ 3} ∧
    (∀ x, x < 8 → x ≠ 3 → ∃! res, res < 8 - 1 ∧ RandNotJ res 3 8 = Run.ret x) ∧
    ∀ r, RandNotJ r 3 8 ≠ Run.ret 3 :=
  RandNotJ_reindexes 3 8 (by decide) (by decide)

/-! ## What one processed reference does -/

theorem classify_evict_table (s : SimState) (x : Nat) (page : PTableEntry)
    (pt1 : List PTableEntry) (hx : s.pageTable[x]? = some page)
    (hcall : classify s x = Run.ret (AccessKind.evict pt1)) :
    ¬ resident page ∧ s.numFramesOpen = 0 ∧ pt1 = s.pageTable.set x (touch page) := by
  by_cases hr : resident page
  · rw [classify_hit s x page hx hr] at hcall
    injection hcall with hc
    exact AccessKind.noConfusion hc
  · by_cases ho : s.numFramesOpen = 0
    · rw [classify_evict s x page hx hr ho] at hcall
      injection hcall with hc
      injection hc with hpt
      exact ⟨hr, ho, hpt.symm⟩
    · rw [classify_open s x page hx hr ho] at hcall
      injection hcall with hc
      exact AccessKind.noConfusion hc

/-- One processed reference in full: the entry of the accessed page `x` ends
resident and referenced; a fault is counted exactly when `x` was not
resident; no page other than `x` becomes resident; and when the reference
takes the eviction branch the victim is not `x` and `x` is given the
returned frame. -/
theorem access_detail (fuel p : Nat) (f : Int) (s : SimState) (x : Nat) (hf : 1 ≤ f)
    (hfuel : 2 * p ≤ fuel) (hx : x < p) (hinv : SimInv p f s) :
    ∃ (s1 : SimState) (e : PTableEntry), access fuel p s x = Run.ret s1 ∧ SimInv p f s1 ∧
      s1.pageTable[x]? = some e ∧ resident e ∧ referenced e ∧
      s1.numPageFaults = s.numPageFaults + (if residentAt s.pageTable x = true then 0 else 1) ∧
      (∀ j, residentAt s1.pageTable j = true → j = x ∨ residentAt s.pageTable j = true) ∧
      ∀ pt1, classify s x = Run.ret (AccessKind.evict pt1) →
        ∃ (v : Nat) (r : VictimResult), FindVictim fuel pt1 p s.i = Run.ret r ∧
          clockVictim pt1 p s.i = some v ∧ v ≠ x ∧ r.pageTable[x]? = pt1[x]? ∧
          e.frame = r.newlyOpenFrame := by
  have hp : 0 < p := by omega
  have hxl : x < s.pageTable.length := by rw [hinv.length]; exact hx
  obtain ⟨page, hpage⟩ := getElem?_of_lt s.pageTable x hxl
  by_cases hr : resident page
  · have hra : residentAt s.pageTable x = true := (residentAt_eq_true _ _ _ hpage).2 hr
    refine ⟨_, touch page, access_hit fuel p s x page hpage hr,
      SimInv_hit p f s x page hinv hpage hr, List.getElem?_set_self hxl,
      (resident_touch page).2 hr, referenced_touch page, ?_, ?_, ?_⟩
    · rw [if_pos hra]; simp
    · intro j hj
      simp only at hj
      rw [residentAt_set _ _ _ _ hxl] at hj
      by_cases c : j = x
      · exact Or.inl c
      · rw [if_neg c] at hj; exact Or.inr hj
    · intro pt1 hcall
      exact absurd hr (classify_evict_table s x page pt1 hpage hcall).1
  · have hra : ¬ residentAt s.pageTable x = true :=
      fun c => hr ((residentAt_eq_true _ _ _ hpage).1 c)
    by_cases ho : s.numFramesOpen = 0
    · obtain ⟨_, N, v, r, post, hret⟩ := evict_call_returns fuel p f s x page hf hfuel hinv
        hpage hr ho
      have hx2 := accessed_after_evict p s x page N v r hpage hr post
      have hvx := victim_ne_accessed p s x page N v r hpage hr post
      have hxl2 : x < r.pageTable.length := lt_of_getElem? _ _ _ hx2
      refine ⟨_, { frame := r.newlyOpenFrame, vr := orMask (touch page).vr VALID },
        access_evict fuel p s x page r (touch page) hpage hr ho hret hx2,
        SimInv_evict p f s x page N v r hp hinv hpage hr ho post,
        List.getElem?_set_self hxl2, resident_orValid _ _,
        (referenced_orValid _ _).2 (referenced_touch page), ?_, ?_, ?_⟩
      · rw [if_neg hra]
      · intro j hj
        simp only at hj
        rw [residentAt_set _ _ _ _ hxl2] at hj
        by_cases c : j = x
        · exact Or.inl c
        · right
          rw [if_neg c] at hj
          unfold residentAt at hj
          split at hj
          · rename_i e1 he1
            have hre1 : resident e1 := by simpa using hj
            obtain ⟨e0, he0, hcase | hcase⟩ :=
              origin_after_evict p s x page N v r hinv.length post j e1 c he1
            · obtain ⟨_, _, rfl⟩ := hcase
              exact absurd hre1 (resident_andNotValid _ _)
            · obtain ⟨_, rfl | rfl⟩ := hcase
              · exact (residentAt_eq_true _ _ _ he0).2 ((resident_secondChance e0).1 hre1)
              · exact (residentAt_eq_true _ _ _ he0).2 hre1
          · exact Bool.noConfusion hj
      · intro pt1 hcall
        obtain ⟨_, _, hpt1⟩ := classify_evict_table s x page pt1 hpage hcall
        subst hpt1
        refine ⟨v, r, hret, clockVictim_of_post _ p s.i N v r post, hvx, ?_, rfl⟩
        rw [hx2, List.getElem?_set_self hxl]
    · refine ⟨_, { frame := s.numFramesOpen - 1, vr := orMask (touch page).vr VALID },
        access_open fuel p s x page hpage hr ho, SimInv_open p f s x page hinv hpage hr ho,
        List.getElem?_set_self hxl, resident_orValid _ _,
        (referenced_orValid _ _).2 (referenced_touch page), ?_, ?_, ?_⟩
      · rw [if_neg hra]
      · intro j hj
        simp only at hj
        rw [residentAt_set _ _ _ _ hxl] at hj
        by_cases c : j = x
        · exact Or.inl c
        · rw [if_neg c] at hj; exact Or.inr hj
      · intro pt1 hcall
        exact absurd (classify_evict_table s x page pt1 hpage hcall).2.1 ho

/-! ## A lower bound on the faults -/

theorem toFinset_append_singleton (seen : List Nat) (x : Nat) :
    (seen ++ [x]).toFinset = insert x seen.toFinset := by
  ext y; simp [or_comm]

/-- The loop with the list `seen` of the references processed so far: only
pages of `seen` are resident, and every distinct page of `seen` has been
counted as a fault. -/
theorem lower_loop (fuel p : Nat) (f : Int) (hf : 1 ≤ f) (hfuel : 2 * p ≤ fuel) :
    ∀ (trace seen : List Nat) (s : SimState), SimInv p f s → (∀ y, y ∈ trace → y < p) →
    (∀ j, residentAt s.pageTable j = true → j ∈ seen) →
    (seen.toFinset.card : Int) ≤ s.numPageFaults →
    ∃ s1, simLoop fuel p s trace = Run.ret s1 ∧ SimInv p f s1 ∧
      (∀ j, residentAt s1.pageTable j = true → j ∈ seen ++ trace) ∧
      ((seen ++ trace).toFinset.card : Int) ≤ s1.numPageFaults
  | [], seen, s, hinv, _, hsub, hcard =>
    ⟨s, rfl, hinv, by rw [List.append_nil]; exact hsub, by rw [List.append_nil]; exact hcard⟩
  | x :: rest, seen, s, hinv, htr, hsub, hcard => by
    obtain ⟨s1, e, h1, hinv1, _, _, _, hfaults, hres, _⟩ :=
      access_detail fuel p f s x hf hfuel (htr x (List.mem_cons_self x rest)) hinv
    have hsub1 : ∀ j, residentAt s1.pageTable j = true → j ∈ seen ++ [x] := by
      intro j hj
      rcases hres j hj with rfl | hj0
      · simp
      · exact List.mem_append_left _ (hsub j hj0)
    have hcard1 : ((seen ++ [x]).toFinset.card : Int) ≤ s1.numPageFaults := by
      rw [toFinset_append_singleton]
      by_cases hmem : x ∈ seen
      · rw [Finset.insert_eq_of_mem (List.mem_toFinset.2 hmem), hfaults]
        split <;> omega
      · have hnr : ¬ residentAt s.pageTable x = true := fun c => hmem (hsub x c)
        rw [Finset.card_insert_of_not_mem (fun c => hmem (List.mem_toFinset.1 c)), hfaults,
          if_neg hnr]
        push_cast
        omega
    obtain ⟨s2, h2, hinv2, hsub2, hcard2⟩ := lower_loop fuel p f hf hfuel rest (seen ++ [x]) s1
      hinv1 (fun y hy => htr y (List.mem_cons_of_mem x hy)) hsub1 hcard1
    refine ⟨s2, ?_, hinv2, ?_, ?_⟩
    · rw [simLoop_cons fuel p s s1 x rest h1]; exact h2
    · intro j hj
      have := hsub2 j hj
      rw [List.append_assoc] at this
      exact this
    · rw [List.append_assoc] at hcard2
      exact hcard2

theorem residentAt_init_false (p : Nat) (f : Int) (h j : Nat) :
    residentAt (initState p f h).pageTable j = true → j ∈ ([] : List Nat) :=
  (residentAt_init p f h j).1

/-- Claim C12. With `f ≥ 1` and the starting hand in `[0, p)`, `Simulate`
returns at least the number of distinct pages of the trace (and at most its
length), so more than `0` on a non-empty trace; and the first occurrence of
a page in the trace is a fault. -/
theorem Simulate_fault_lower_bound (p : Nat) (f : Int) (h : Nat) (trace : List Nat)
    (fuel : Nat) (hf : 1 ≤ f) (hh : h < p) (htr : ∀ y, y ∈ trace → y < p)
    (hfuel : 2 * p ≤ fuel) :
    (∃ k, Simulate fuel trace f p h = Run.ret k ∧ (trace.dedup.length : Int) ≤ k ∧
      (trace ≠ [] → 0 < k) ∧ k ≤ (trace.length : Int)) ∧
    ∀ (front rest : List Nat) (x : Nat) (s : SimState), trace = front ++ x :: rest →
      x ∉ front → simLoop fuel p (initState p f h) front = Run.ret s →
      ∃ s1, access fuel p s x = Run.ret s1 ∧ s1.numPageFaults = s.numPageFaults + 1 := by
  have hinit := SimInv_init p f h (by omega) hh
  constructor
  · obtain ⟨s, hs, _, _, hcard⟩ := lower_loop fuel p f hf hfuel trace [] (initState p f h)
      hinit htr (residentAt_init_false p f h) (by simp [initState])
    obtain ⟨s2, hs2, _, _, hhi⟩ := simLoop_inv fuel p f hf hfuel trace (initState p f h) htr
      hinit
    rw [hs] at hs2
    have hss : s = s2 := by injection hs2
    subst hss
    rw [List.nil_append, List.card_toFinset] at hcard
    refine ⟨s.numPageFaults, Simulate_eq fuel trace f p h s hs, hcard, ?_, ?_⟩
    · intro hne
      have hpos : 0 < trace.dedup.length := by
        rw [List.length_pos]
        intro c
        exact hne (List.dedup_eq_nil trace |>.1 c)
      omega
    · simpa [initState] using hhi
  · intro front rest x s hsplit hx hs
    have hfront : ∀ y, y ∈ front → y < p :=
      fun y hy => htr y (by rw [hsplit]; exact List.mem_append_left _ hy)
    obtain ⟨s0, hs0, hinv0, hsub0, _⟩ := lower_loop fuel p f hf hfuel front []
      (initState p f h) hinit hfront (residentAt_init_false p f h) (by simp [initState])
    rw [hs] at hs0
    have hss : s = s0 := by injection hs0
    subst hss
    rw [List.nil_append] at hsub0
    obtain ⟨s1, e, h1, _, _, _, _, hfaults, _, _⟩ :=
      access_detail fuel p f s x hf hfuel (htr x (by rw [hsplit]; simp)) hinv0
    rw [if_neg (fun c => hx (hsub0 x c))] at hfaults
    exact ⟨s1, h1, hfaults⟩

theorem Simulate_fault_lower_bound_witness :
    (∃ k, Simulate 16 [1, 4, 0, 7, 3, 4, 5, 7, 6, 0, 6, 3, 2, 6, 7, 1] 4 8 0 = Run.ret k ∧
      (([1, 4, 0, 7, 3, 4, 5, 7, 6, 0, 6, 3, 2, 6, 7, 1] : List Nat).dedup.length : Int) ≤ k ∧
      (([1, 4, 0, 7, 3, 4, 5, 7, 6, 0, 6, 3, 2, 6, 7, 1] : List Nat) ≠ [] → 0 < k) ∧
      k ≤ (([1, 4, 0, 7, 3, 4, 5, 7, 6, 0, 6, 3, 2, 6, 7, 1] : List Nat).length : Int)) ∧
    ∀ (front rest : List Nat) (x : Nat) (s : SimState),
      [1, 4, 0, 7, 3, 4, 5, 7, 6, 0, 6, 3, 2, 6, 7, 1] = front ++ x :: rest →
      x ∉ front → simLoop 16 8 (initState 8 4 0) front = Run.ret s →
      ∃ s1, access 16 8 s x = Run.ret s1 ∧ s1.numPageFaults = s.numPageFaults + 1 :=
  Simulate_fault_lower_bound 8 4 0 [1, 4, 0, 7, 3, 4, 5, 7, 6, 0, 6, 3, 2, 6, 7, 1] 16
    (by decide) (by decide) (by decide) (by decide)

/-- Claim C18. With `f ≥ 1`, from any state `Simulate` reaches, processing a
reference to a page `x < p` returns with the entry of `x` resident and its
referenced bit set; and when the reference takes the eviction branch, the
evicted index is not `x`, the call leaves the entry of `x` as it was, and
`x` is given exactly the frame `FindVictim` returned. -/
theorem Simulate_access_post_state (p : Nat) (f : Int) (h : Nat) (front : List Nat)
    (fuel : Nat) (x : Nat) (s : SimState)
    (hf : 1 ≤ f) (hh : h < p) (hfront : ∀ y, y ∈ front → y < p) (hx : x < p)
    (hfuel : 2 * p ≤ fuel) (hs : simLoop fuel p (initState p f h) front = Run.ret s) :
    ∃ (s1 : SimState) (e : PTableEntry), access fuel p s x = Run.ret s1 ∧
      s1.pageTable[x]? = some e ∧ resident e ∧ referenced e ∧
      ∀ pt1, classify s x = Run.ret (AccessKind.evict pt1) →
        ∃ (v : Nat) (r : VictimResult), FindVictim fuel pt1 p s.i = Run.ret r ∧
          clockVictim pt1 p s.i = some v ∧ v ≠ x ∧ r.pageTable[x]? = pt1[x]? ∧
          e.frame = r.newlyOpenFrame := by
  obtain ⟨s0, hs0, hinv⟩ := simLoop_inv_front fuel p f hf hfuel front front []
    (initState p f h) hfront (List.append_nil front).symm (SimInv_init p f h (by omega) hh)
  rw [hs] at hs0
  have hss : s = s0 := by injection hs0
  subst hss
  obtain ⟨s1, e, h1, _, he, hre, hrf, _, _, hev⟩ :=
    access_detail fuel p f s x hf hfuel hx hinv
  exact ⟨s1, e, h1, he, hre, hrf, hev⟩

theorem Simulate_access_post_state_witness :
    ∃ (s1 : SimState) (e : PTableEntry),
      access 6 3
        { pageTable := [{ frame := 1, vr := 3 }, { frame := 0, vr := 3 },
            { frame := -1, vr := 0 }],
          numFramesOpen := 0, numPageFaults := 2, i := 1 } 2 = Run.ret s1 ∧
      s1.pageTable[2]? = some e ∧ resident e ∧ referenced e ∧
      ∀ pt1,
        classify
          { pageTable := [{ frame := 1, vr := 3 }, { frame := 0, vr := 3 },
              { frame := -1, vr := 0 }],
            numFramesOpen := 0, numPageFaults := 2, i := 1 } 2 =
          Run.ret (AccessKind.evict pt1) →
        ∃ (v : Nat) (r : VictimResult), FindVictim 6 pt1 3 1 = Run.ret r ∧
          clockVictim pt1 3 1 = some v ∧ v ≠ 2 ∧ r.pageTable[2]? = pt1[2]? ∧
          e.frame = r.newlyOpenFrame :=
  Simulate_access_post_state 3 2 1 [0, 1] 6 2
    { pageTable := [{ frame := 1, vr := 3 }, { frame := 0, vr := 3 },
        { frame := -1, vr := 0 }],
      numFramesOpen := 0, numPageFaults := 2, i := 1 }
    (by decide) (by decide) (by decide) (by decide) (by decide) (by decide)

/-- The eviction of the witness above, evaluated: page `2` faults with no open
frame, page `1` (under the hand) is evicted after a full sweep, and page `2`
is given its frame `0`. -/
theorem access_eviction_example :
    access 6 3
      { pageTable := [{ frame := 1, vr := 3 }, { frame := 0, vr := 3 },
          { frame := -1, vr := 0 }],
        numFramesOpen := 0, numPageFaults := 2, i := 1 } 2 =
      Run.ret
        { pageTable := [{ frame := 1, vr := 2 }, { frame := -1, vr := 0 },
            { frame := 0, vr := 3 }],
          numFramesOpen := 0, numPageFaults := 3, i := 2 } := by
  decide

/-! ## The starting hand -/

theorem access_fuel_indep (fuel1 fuel2 p : Nat) (f : Int) (s : SimState) (x : Nat)
    (hf : 1 ≤ f) (h1 : 2 * p ≤ fuel1) (h2 : 2 * p ≤ fuel2) (hx : x < p)
    (hinv : SimInv p f s) : access fuel1 p s x = access fuel2 p s x := by
  obtain ⟨page, hpage⟩ := getElem?_of_lt s.pageTable x (by rw [hinv.length]; exact hx)
  by_cases hr : resident page
  · rw [access_hit fuel1 p s x page hpage hr, access_hit fuel2 p s x page hpage hr]
  · by_cases ho : s.numFramesOpen = 0
    · obtain ⟨_, N, v, r, post, hret1⟩ := evict_call_returns fuel1 p f s x page hf h1 hinv
        hpage hr ho
      have hN := post.iters_le
      have hret2 : FindVictim fuel2 (s.pageTable.set x (touch page)) p s.i = Run.ret r := by
        have e1 : fuel2 = N + (fuel2 - N) := by omega
        rw [e1]; exact post.returns _
      have hx2 := accessed_after_evict p s x page N v r hpage hr post
      rw [access_evict fuel1 p s x page r (touch page) hpage hr ho hret1 hx2,
        access_evict fuel2 p s x page r (touch page) hpage hr ho hret2 hx2]
    · rw [access_open fuel1 p s x page hpage hr ho, access_open fuel2 p s x page hpage hr ho]

theorem simLoop_fuel_indep (fuel1 fuel2 p : Nat) (f : Int) (hf : 1 ≤ f)
    (h1 : 2 * p ≤ fuel1) (h2 : 2 * p ≤ fuel2) :
    ∀ (trace : List Nat) (s : SimState), (∀ y, y ∈ trace → y < p) → SimInv p f s →
    simLoop fuel1 p s trace = simLoop fuel2 p s trace
  | [], _, _, _ => rfl
  | x :: rest, s, htr, hinv => by
    have hx := htr x (List.mem_cons_self x rest)
    obtain ⟨s1, hs1, hinv1, _, _⟩ := access_step fuel1 p f s x hf h1 hx hinv
    have hs2 : access fuel2 p s x = Run.ret s1 := by
      rw [← access_fuel_indep fuel1 fuel2 p f s x hf h1 h2 hx hinv]; exact hs1
    rw [simLoop_cons fuel1 p s s1 x rest hs1, simLoop_cons fuel2 p s s1 x rest hs2]
    exact simLoop_fuel_indep fuel1 fuel2 p f hf h1 h2 rest s1
      (fun y hy => htr y (List.mem_cons_of_mem x hy)) hinv1

/-- Claim C13. The result of `Simulate` is determined by the trace, the frame
count, the page count and the starting hand (the bound on the iterations of
`FindVictim` plays no part once it is at least `2 * p`), and the starting
hand matters: on the trace `[0, 1, 2, 1]` with 3 pages and 2 frames the hand
`0` gives 3 faults and the hand `1` gives 4.  In the sweep of `main` with
`n = 16`, `p = 8`, the trial `f = 4` from hand `0` leaves the hand at `3`,
from which the trial `f = 5` counts 10 faults, whereas from hand `0` it
counts 11. -/
theorem Simulate_depends_on_hand (p : Nat) (f : Int) (h : Nat) (trace : List Nat)
    (fuel1 fuel2 : Nat) (hf : 1 ≤ f) (hh : h < p) (htr : ∀ y, y ∈ trace → y < p)
    (h1 : 2 * p ≤ fuel1) (h2 : 2 * p ≤ fuel2) :
    Simulate fuel1 trace f p h = Simulate fuel2 trace f p h ∧
    (∃ (p0 : Nat) (f0 : Int) (tr : List Nat) (ha hb : Nat) (a b : Int),
      1 ≤ f0 ∧ ha < p0 ∧ hb < p0 ∧ (∀ y, y ∈ tr → y < p0) ∧
      Simulate (2 * p0) tr f0 p0 ha = Run.ret a ∧
      Simulate (2 * p0) tr f0 p0 hb = Run.ret b ∧ a ≠ b) ∧
    (Simulate 6 [0, 1, 2, 1] 2 3 0 = Run.ret 3 ∧ Simulate 6 [0, 1, 2, 1] 2 3 1 = Run.ret 4) ∧
    (∃ s4, simLoop 16 8 (initState 8 4 0)
        [1, 4, 0, 7, 3, 4, 5, 7, 6, 0, 6, 3, 2, 6, 7, 1] = Run.ret s4 ∧
      s4.numPageFaults = 12 ∧ s4.i = 3 ∧
      Simulate 16 [1, 4, 0, 7, 3, 4, 5, 7, 6, 0, 6, 3, 2, 6, 7, 1] 5 8 s4.i = Run.ret 10 ∧
      Simulate 16 [1, 4, 0, 7, 3, 4, 5, 7, 6, 0, 6, 3, 2, 6, 7, 1] 5 8 0 = Run.ret 11) := by
  refine ⟨?_, ?_, ⟨by decide, by decide⟩, ?_⟩
  · rw [Simulate, Simulate, simLoop_fuel_indep fuel1 fuel2 p f hf h1 h2 trace
      (initState p f h) htr (SimInv_init p f h (by omega) hh)]
  · exact ⟨3, 2, [0, 1, 2, 1], 0, 1, 3, 4, by decide, by decide, by decide, by decide,
      by decide, by decide, by decide⟩
  · refine ⟨{ pageTable := [{ frame := -1, vr := 0 }, { frame := 0, vr := 3 },
                { frame := -1, vr := 0 }, { frame := 3, vr := 2 }, { frame := -1, vr := 0 },
                { frame := -1, vr := 0 }, { frame := 1, vr := 2 }, { frame := 2, vr := 3 }],
              numFramesOpen := 0, numPageFaults := 12, i := 3 }, ?_, rfl, rfl, ?_, ?_⟩
    · decide
    · decide
    · decide

theorem Simulate_depends_on_hand_witness :
    Simulate 6 [0, 1, 2, 1] 2 3 0 = Simulate 9 [0, 1, 2, 1] 2 3 0 ∧
    (∃ (p0 : Nat) (f0 : Int) (tr : List Nat) (ha hb : Nat) (a b : Int),
      1 ≤ f0 ∧ ha < p0 ∧ hb < p0 ∧ (∀ y, y ∈ tr → y < p0) ∧
      Simulate (2 * p0) tr f0 p0 ha = Run.ret a ∧
      Simulate (2 * p0) tr f0 p0 hb = Run.ret b ∧ a ≠ b) ∧
    (Simulate 6 [0, 1, 2, 1] 2 3 0 = Run.ret 3 ∧ Simulate 6 [0, 1, 2, 1] 2 3 1 = Run.ret 4) ∧
    (∃ s4, simLoop 16 8 (initState 8 4 0)
        [1, 4, 0, 7, 3, 4, 5, 7, 6, 0, 6, 3, 2, 6, 7, 1] = Run.ret s4 ∧
      s4.numPageFaults = 12 ∧ s4.i = 3 ∧
      Simulate 16 [1, 4, 0, 7, 3, 4, 5, 7, 6, 0, 6, 3, 2, 6, 7, 1] 5 8 s4.i = Run.ret 10 ∧
      Simulate 16 [1, 4, 0, 7, 3, 4, 5, 7, 6, 0, 6, 3, 2, 6, 7, 1] 5 8 0 = Run.ret 11) :=
  Simulate_depends_on_hand 3 2 0 [0, 1, 2, 1] 6 9 (by decide) (by decide) (by decide)
    (by decide) (by decide)

end Lab10
